import Mathlib

/-!
Verification of the pblog package codec (`src/pblog/package.py`) and of the
markdown front-matter preprocessor (`src/pblog/markdown/extensions/meta.py`).

The Python code is shallowly embedded:

* `bytes` values are `List Nat` of Unicode scalar values; the UTF-8 codec is
  modelled as the scalar-value codec (`utf8Encode` / `utf8Decode`), injective
  and with undecodable sequences (values outside the scalar range), which is
  all that the claims about decoding depend on.
* tar archives are association lists from member names to member bytes;
  member names are kept as component lists (a tar member name never contains
  redundant separators here), and `tarLookup` returns the last member with a
  given name, as `tarfile.TarFile.getmember` does.
* YAML documents are modelled by the inductive `Yaml`, with nesting bounded
  at two levels (the program never produces or inspects deeper documents);
  `yamlLoad` / `yamlDumpMeta` model the PyYAML subset that the program
  exchanges: flat mappings written one `key: value` pair per line, flat
  sequences and bare scalar documents, with plain scalars resolved to their
  typed values (`null`, booleans, integers, dates, strings) and strings
  that would not load back verbatim dumped double-quoted with escapes.
* Python's text-mode `open` and the `markdown` library both apply
  universal-newline translation (`univNl`) to the text they consume; the
  raw bytes that `tar.add` archives do not go through it.
* the cerberus validators are transcribed schema-by-schema
  (`validate_package_meta`, `validate_post_meta`).
* Python exceptions become the `PyErr` error type of an `Except` monad.
* the shared module-level markdown parser becomes an explicit `parser`
  argument (any function `String → MdOut` is deterministic, which is the
  only property of the parser the package code relies on); `mdParse` is a
  concrete instance used to evaluate the development on closed inputs.
-/

/-- A calendar date (`datetime.date`). -/
structure PDate where
  year : Int
  month : Nat
  day : Nat
deriving DecidableEq, Repr

/-- A scalar YAML value. -/
inductive YScalar where
  | str (s : String)
  | int (n : Int)
  | date (d : PDate)
  | null
  | bool (b : Bool)
deriving DecidableEq, Repr

/-- A YAML value sitting inside a top-level mapping: a scalar or a flat
mapping (two levels of nesting are all the program ever produces). -/
inductive YVal where
  | scalar (v : YScalar)
  | map (m : List (String × YScalar))
deriving DecidableEq, Repr

/-- A parsed YAML document: a scalar, a sequence of scalars, or a mapping. -/
inductive Yaml where
  | scalar (v : YScalar)
  | list (items : List YScalar)
  | map (m : List (String × YVal))
deriving DecidableEq, Repr

/-- The Python exceptions that the embedded code can raise. -/
inductive PyErr where
  | packageException (msg : String)
  | packageValidationError (errors : List (String × String))
  | resourcesNotFound (resources : List String)
  | unicodeDecodeError
  | keyError
  | nameError
  | valueError
  | fileNotFoundError
  | notADirectoryError
  | documentError
  | indexError
  | yamlError
deriving DecidableEq, Repr

/-- Byte strings, abstracted to sequences of Unicode scalar values. -/
abbrev Bytes := List Nat

/-- Valid Unicode scalar values, as a boolean predicate. -/
def isValidScalar (n : Nat) : Bool :=
  n < 55296 || (57343 < n && n < 1114112)

theorem isValidScalar_iff (n : Nat) : isValidScalar n = true ↔ Nat.isValidChar n := by
  simp [isValidScalar, Nat.isValidChar, Bool.or_eq_true, Bool.and_eq_true,
    decide_eq_true_iff]

/-- Encoding a text to bytes (model of `str.encode()`). -/
def utf8Encode (s : String) : Bytes :=
  s.data.map Char.toNat

/-- Decoding bytes to text (model of `bytes.decode()`); sequences containing
an invalid scalar raise `UnicodeDecodeError`, modelled as `Except.error`. -/
def utf8Decode (b : Bytes) : Except Unit String :=
  if b.all isValidScalar then .ok (String.mk (b.map Char.ofNat)) else .error ()

theorem map_ofNat_map_toNat (l : List Char) :
    (l.map Char.toNat).map Char.ofNat = l := by
  induction l with
  | nil => rfl
  | cons c r ih => simp [ih, Char.ofNat_toNat]

theorem utf8Decode_utf8Encode (s : String) : utf8Decode (utf8Encode s) = .ok s := by
  unfold utf8Decode utf8Encode
  rw [if_pos]
  · rw [map_ofNat_map_toNat]
  · rw [List.all_eq_true]
    intro n hn
    obtain ⟨c, _, rfl⟩ := List.mem_map.1 hn
    exact (isValidScalar_iff _).2 c.valid

/-- Split a character list at every occurrence of a separator character. -/
def splitOnChar (c : Char) : List Char → List (List Char)
  | [] => [[]]
  | x :: xs =>
    match splitOnChar c xs with
    | [] => [[]]
    | r :: rs => if x = c then [] :: r :: rs else (x :: r) :: rs

theorem splitOnChar_not_mem {c : Char} {l : List Char} (h : c ∉ l) :
    splitOnChar c l = [l] := by
  induction l with
  | nil => rfl
  | cons x xs ih =>
    have hx : x ≠ c := fun he => h (he ▸ List.mem_cons_self x xs)
    have hxs : c ∉ xs := fun hm => h (List.mem_cons_of_mem _ hm)
    rw [splitOnChar, ih hxs]
    simp [hx]

theorem splitOnChar_append_cons {c : Char} {l1 : List Char} (l2 : List Char)
    (h : c ∉ l1) :
    splitOnChar c (l1 ++ c :: l2) = l1 :: splitOnChar c l2 := by
  induction l1 with
  | nil =>
    rw [List.nil_append, splitOnChar]
    match hs : splitOnChar c l2 with
    | [] => simp
    | r :: rs => simp
  | cons x xs ih =>
    have hx : x ≠ c := fun he => h (he ▸ List.mem_cons_self x xs)
    have hxs : c ∉ xs := fun hm => h (List.mem_cons_of_mem _ hm)
    rw [List.cons_append, splitOnChar, ih hxs]
    simp [hx]

/-- Parse one `key: value` line: split at the first occurrence of
a colon followed by a space. -/
def parseLine : List Char → Option (List Char × List Char)
  | [] => none
  | ':' :: ' ' :: rest => some ([], rest)
  | x :: rest =>
    match parseLine rest with
    | some (k, v) => some (x :: k, v)
    | none => none

/-- First-match lookup in an association list (Python `dict` indexing). -/
def alookup {α : Type} : List (String × α) → String → Option α
  | [], _ => none
  | (k, v) :: r, key => if k = key then some v else alookup r key

theorem alookup_append {α : Type} (xs ys : List (String × α)) (k : String) :
    alookup (xs ++ ys) k =
      match alookup xs k with
      | some v => some v
      | none => alookup ys k := by
  induction xs with
  | nil => rfl
  | cons e r ih =>
    obtain ⟨k2, v2⟩ := e
    by_cases h : k2 = k
    · simp [alookup, h]
    · simp [alookup, h, ih]

/-- Insert into an association list, replacing an existing binding in place or
appending a new one (how a Python `dict` built key by key behaves). -/
def assocInsert {α : Type} : List (String × α) → String → α → List (String × α)
  | [], k, v => [(k, v)]
  | (k2, v2) :: r, k, v =>
    if k2 = k then (k, v) :: r else (k2, v2) :: assocInsert r k v

/-- Fold a list of parsed bindings into a mapping, later keys overriding
earlier ones as PyYAML does for duplicate keys. -/
def buildMap {α : Type} (entries : List (String × α)) : List (String × α) :=
  entries.foldl (fun m kv => assocInsert m kv.1 kv.2) []

/-- Escape one character for a double-quoted YAML scalar. -/
def escapeChar (c : Char) : List Char :=
  if c = '\\' then ['\\', '\\']
  else if c = '\n' then ['\\', 'n']
  else if c = '\r' then ['\\', 'r']
  else if c = '"' then ['\\', '"']
  else [c]

/-- Escape a character sequence for a double-quoted YAML scalar. -/
def escapeStr : List Char → List Char
  | [] => []
  | c :: cs => escapeChar c ++ escapeStr cs

/-- Undo `escapeStr`; fails on a dangling or unknown escape. -/
def unescapeStr : List Char → Option (List Char)
  | [] => some []
  | c :: cs =>
    if c = '\\' then
      match cs with
      | [] => none
      | e :: cs2 =>
        match unescapeStr cs2 with
        | none => none
        | some r =>
          if e = '\\' then some ('\\' :: r)
          else if e = 'n' then some ('\n' :: r)
          else if e = 'r' then some ('\r' :: r)
          else if e = '"' then some ('"' :: r)
          else none
    else
      match unescapeStr cs with
      | none => none
      | some r => some (c :: r)

theorem unescape_escape (cs : List Char) : unescapeStr (escapeStr cs) = some cs := by
  induction cs with
  | nil => rfl
  | cons c r ih =>
    show unescapeStr (escapeChar c ++ escapeStr r) = some (c :: r)
    unfold escapeChar
    by_cases h1 : c = '\\'
    · subst h1
      simp [unescapeStr, ih]
    · rw [if_neg h1]
      by_cases h2 : c = '\n'
      · subst h2
        simp [unescapeStr, ih, h1]
      · rw [if_neg h2]
        by_cases h3 : c = '\r'
        · subst h3
          simp [unescapeStr, ih, h1]
        · rw [if_neg h3]
          by_cases h4 : c = '"'
          · subst h4
            simp [unescapeStr, ih, h1]
          · rw [if_neg h4]
            show unescapeStr (c :: escapeStr r) = some (c :: r)
            rw [unescapeStr.eq_def]
            simp only [if_neg h1, ih]

theorem escapeChar_no_nl (c : Char) : '\n' ∉ escapeChar c ∧ '\r' ∉ escapeChar c := by
  unfold escapeChar
  by_cases h1 : c = '\\'
  · rw [if_pos h1]
    exact ⟨by decide, by decide⟩
  · rw [if_neg h1]
    by_cases h2 : c = '\n'
    · rw [if_pos h2]
      exact ⟨by decide, by decide⟩
    · rw [if_neg h2]
      by_cases h3 : c = '\r'
      · rw [if_pos h3]
        exact ⟨by decide, by decide⟩
      · rw [if_neg h3]
        by_cases h4 : c = '"'
        · rw [if_pos h4]
          exact ⟨by decide, by decide⟩
        · rw [if_neg h4]
          refine ⟨fun he => h2 ?_, fun he => h3 ?_⟩
          · exact (List.mem_singleton.1 he).symm
          · exact (List.mem_singleton.1 he).symm

theorem escapeStr_no_nl (cs : List Char) : '\n' ∉ escapeStr cs ∧ '\r' ∉ escapeStr cs := by
  induction cs with
  | nil => exact ⟨by simp [escapeStr], by simp [escapeStr]⟩
  | cons c r ih =>
    obtain ⟨ec1, ec2⟩ := escapeChar_no_nl c
    show '\n' ∉ escapeChar c ++ escapeStr r ∧ '\r' ∉ escapeChar c ++ escapeStr r
    constructor
    · intro hmem
      rcases List.mem_append.1 hmem with h | h
      · exact ec1 h
      · exact ih.1 h
    · intro hmem
      rcases List.mem_append.1 hmem with h | h
      · exact ec2 h
      · exact ih.2 h

/-- The digits of an unsigned decimal numeral. -/
def digitsToNat (cs : List Char) : Nat :=
  cs.foldl (fun n c => n * 10 + (c.toNat - 48)) 0

/-- A nonempty all-digit character sequence. -/
def allDigits (cs : List Char) : Bool :=
  !cs.isEmpty && cs.all (fun c => c.isDigit)

/-- A plain YAML integer: optional minus sign and decimal digits. -/
def parseIntChars (cs : List Char) : Option Int :=
  match cs with
  | '-' :: rest => if allDigits rest then some (-(digitsToNat rest : Int)) else none
  | _ => if allDigits cs then some ((digitsToNat cs : Int)) else none

/-- A plain YAML date `yyyy-mm-dd`. -/
def parseDateChars (cs : List Char) : Option PDate :=
  match cs with
  | [a, b, c, d, '-', e, f, '-', g, h] =>
    if [a, b, c, d, e, f, g, h].all Char.isDigit then
      some ⟨(digitsToNat [a, b, c, d] : Int), digitsToNat [e, f], digitsToNat [g, h]⟩
    else none
  | _ => none

/-- An unquoted YAML scalar resolved to its typed value, as PyYAML does:
`null`, booleans, integers and dates are recognized, everything else is a
string. -/
def scalarOfPlain (cs : List Char) : YScalar :=
  if cs = "null".data || cs = "~".data then .null
  else if cs = "true".data || cs = "True".data then .bool true
  else if cs = "false".data || cs = "False".data then .bool false
  else
    match parseIntChars cs with
    | some n => .int n
    | none =>
      match parseDateChars cs with
      | some d => .date d
      | none => .str (String.mk cs)

/-- Whether a character sequence opens with a double quote. -/
def startsQuote : List Char → Bool
  | '"' :: _ => true
  | _ => false

/-- Strip the closing quote of a double-quoted scalar body. -/
def unquote : List Char → Option (List Char)
  | [] => none
  | [c] => if c = '"' then some [] else none
  | c :: rest => (unquote rest).map (c :: ·)

theorem unquote_append (mid : List Char) : unquote (mid ++ ['"']) = some mid := by
  induction mid with
  | nil => rfl
  | cons c mid2 ih =>
    rcases hx : mid2 ++ ['"'] with _ | ⟨d, tail⟩
    · exact absurd hx (by simp)
    · show unquote (c :: (mid2 ++ ['"'])) = some (c :: mid2)
      rw [hx]
      show (unquote (d :: tail)).map (c :: ·) = some (c :: mid2)
      rw [← hx, ih]
      rfl

/-- A YAML scalar in value position: double-quoted with escapes, or plain. -/
def parseValue (cs : List Char) : Option YScalar :=
  match cs with
  | '"' :: rest =>
    match unquote rest with
    | some mid => (unescapeStr mid).map (fun m => YScalar.str (String.mk m))
    | none => none
  | _ => some (scalarOfPlain cs)

theorem parseValue_not_quote (cs : List Char) (h : startsQuote cs = false) :
    parseValue cs = some (scalarOfPlain cs) := by
  cases cs with
  | nil => rfl
  | cons c rest =>
    have hc : c ≠ '"' := by
      intro he
      subst he
      exact absurd h (by simp [startsQuote])
    rw [parseValue.eq_def]
    split
    · rename_i heq
      injection heq with h1 _
      exact absurd h1 hc
    · rfl

/-- Whether PyYAML would need to quote the string to dump it losslessly: it
contains a line break, opens with a quote, or would load back as a
different typed scalar. -/
def needsQuote (v : String) : Bool :=
  v.data.any (fun c => c = '\n' || c = '\r') || startsQuote v.data
  || decide (scalarOfPlain v.data ≠ .str v)

/-- Dump a string value, quoting and escaping it when needed. -/
def dumpValue (v : String) : String :=
  if needsQuote v then String.mk ('"' :: (escapeStr v.data ++ ['"'])) else v

theorem mk_data (s : String) : String.mk s.data = s := rfl

theorem parseValue_dumpValue (v : String) :
    parseValue (dumpValue v).data = some (.str v) := by
  unfold dumpValue
  by_cases hq : needsQuote v = true
  · rw [if_pos hq]
    show parseValue ('"' :: (escapeStr v.data ++ ['"'])) = some (.str v)
    show (match unquote (escapeStr v.data ++ ['"']) with
          | some mid => (unescapeStr mid).map (fun m => YScalar.str (String.mk m))
          | none => none) = some (.str v)
    rw [unquote_append]
    show (unescapeStr (escapeStr v.data)).map (fun m => YScalar.str (String.mk m))
        = some (.str v)
    rw [unescape_escape]
    rfl
  · rw [if_neg hq]
    rw [Bool.not_eq_true] at hq
    unfold needsQuote at hq
    rw [Bool.or_eq_false_iff, Bool.or_eq_false_iff] at hq
    obtain ⟨⟨h1, h2⟩, h3⟩ := hq
    rw [parseValue_not_quote v.data h2]
    have h4 : scalarOfPlain v.data = .str v := by
      have h5 := of_decide_eq_false h3
      exact not_not.1 h5
    rw [h4]

theorem dumpValue_no_nl (v : String) :
    '\n' ∉ (dumpValue v).data ∧ '\r' ∉ (dumpValue v).data := by
  unfold dumpValue
  by_cases hq : needsQuote v = true
  · rw [if_pos hq]
    obtain ⟨e1, e2⟩ := escapeStr_no_nl v.data
    constructor
    · intro hmem
      rcases List.mem_cons.1 hmem with h | h
      · exact absurd h (by decide)
      · rcases List.mem_append.1 h with h | h
        · exact e1 h
        · exact absurd h (by decide)
    · intro hmem
      rcases List.mem_cons.1 hmem with h | h
      · exact absurd h (by decide)
      · rcases List.mem_append.1 h with h | h
        · exact e2 h
        · exact absurd h (by decide)
  · rw [if_neg hq]
    rw [Bool.not_eq_true] at hq
    unfold needsQuote at hq
    rw [Bool.or_eq_false_iff, Bool.or_eq_false_iff] at hq
    obtain ⟨⟨h1, _⟩, _⟩ := hq
    constructor
    · intro hmem
      have h2 := List.any_eq_false.1 h1 '\n' hmem
      simp at h2
    · intro hmem
      have h2 := List.any_eq_false.1 h1 '\r' hmem
      simp at h2

/-- Parse every line as a `key: value` binding with a typed scalar value. -/
def linesToEntries : List (List Char) → Option (List (String × YVal))
  | [] => some []
  | l :: rest =>
    match parseLine l, linesToEntries rest with
    | some (k, v), some es =>
      match parseValue v with
      | some s => some ((String.mk k, .scalar s) :: es)
      | none => none
    | _, _ => none

/-- Parse every line as a `- item` sequence entry. -/
def linesToItems : List (List Char) → Option (List YScalar)
  | [] => some []
  | l :: rest =>
    match l with
    | '-' :: ' ' :: v =>
      match parseValue v, linesToItems rest with
      | some s, some items => some (s :: items)
      | _, _ => none
    | _ => none

/-- Carriage returns count as line breaks. -/
def normNewlines (cs : List Char) : List Char :=
  cs.map (fun c => if c = '\r' then '\n' else c)

/-- YAML whitespace. -/
def isWsChar (c : Char) : Bool :=
  c = ' ' || c = '\n' || c = '\t' || c = '\r'

/-- Modelled from PyYAML `yaml.load` (external dependency), restricted to the
fragment the program exchanges: a whitespace-only document loads as `None`; a
document whose lines are `key: value` pairs loads as a flat mapping, with
values resolved to typed scalars (quoted strings, `null`, booleans,
integers, dates, plain strings) and later duplicate keys overriding earlier
ones; a document whose lines are `- item` entries loads as a sequence of
scalars; a single non-binding line loads as a bare scalar document;
anything else fails with `yaml.YAMLError`. Non-mapping documents (scalars
and sequences) are exactly what makes the cerberus validators raise
`DocumentError` downstream. -/
def yamlLoad (s : String) : Except Unit (Option Yaml) :=
  if (normNewlines s.data).all isWsChar then .ok none
  else
    match linesToEntries ((splitOnChar '\n' (normNewlines s.data)).filter (· ≠ [])) with
    | some entries => .ok (some (.map (buildMap entries)))
    | none =>
      match linesToItems ((splitOnChar '\n' (normNewlines s.data)).filter (· ≠ [])) with
      | some items => .ok (some (.list items))
      | none =>
        match (splitOnChar '\n' (normNewlines s.data)).filter (· ≠ []) with
        | [l] =>
          match parseValue l with
          | some v => .ok (some (.scalar v))
          | none => .error ()
        | _ => .error ()

/-- Modelled from `yaml.dump(dict(post=..., encoding=...))` in
`build_package` (src/pblog/package.py line 371): PyYAML dumps mapping keys
in sorted order, one `key: value` pair per line, quoting a value that would
otherwise not load back as the same string. -/
def yamlDumpMeta (postName encoding : String) : String :=
  "encoding: " ++ dumpValue encoding ++ "\n" ++ "post: " ++ dumpValue postName ++ "\n"

theorem normNewlines_of_not_mem {l : List Char} (h : '\r' ∉ l) : normNewlines l = l := by
  induction l with
  | nil => rfl
  | cons c r ih =>
    have hc : c ≠ '\r' := fun he => h (he ▸ List.mem_cons_self c r)
    have hr : '\r' ∉ r := fun hm => h (List.mem_cons_of_mem _ hm)
    have hstep : normNewlines (c :: r) = (if c = '\r' then '\n' else c) :: normNewlines r := rfl
    rw [hstep, if_neg hc, ih hr]

theorem parseLine_encoding (v : List Char) :
    parseLine ('e' :: 'n' :: 'c' :: 'o' :: 'd' :: 'i' :: 'n' :: 'g' :: ':' :: ' ' :: v)
      = some (['e', 'n', 'c', 'o', 'd', 'i', 'n', 'g'], v) := rfl

theorem parseLine_post (v : List Char) :
    parseLine ('p' :: 'o' :: 's' :: 't' :: ':' :: ' ' :: v)
      = some (['p', 'o', 's', 't'], v) := rfl

theorem yamlLoad_yamlDumpMeta (postName enc : String) :
    yamlLoad (yamlDumpMeta postName enc) =
      .ok (some (.map [("encoding", .scalar (.str enc)),
                       ("post", .scalar (.str postName))])) := by
  obtain ⟨he1, he2⟩ := dumpValue_no_nl enc
  obtain ⟨hp1, hp2⟩ := dumpValue_no_nl postName
  have hdata : (yamlDumpMeta postName enc).data
      = ('e' :: 'n' :: 'c' :: 'o' :: 'd' :: 'i' :: 'n' :: 'g' :: ':' :: ' ' :: (dumpValue enc).data)
        ++ '\n' :: (('p' :: 'o' :: 's' :: 't' :: ':' :: ' ' :: (dumpValue postName).data) ++ ['\n']) := by
    simp [yamlDumpMeta, String.data_append]
  have hnr : '\r' ∉ (yamlDumpMeta postName enc).data := by
    rw [hdata]
    simp [List.mem_append, List.mem_cons]
    exact ⟨he2, hp2⟩
  unfold yamlLoad
  rw [normNewlines_of_not_mem hnr, hdata]
  have hall : ((('e' :: 'n' :: 'c' :: 'o' :: 'd' :: 'i' :: 'n' :: 'g' :: ':' :: ' ' :: (dumpValue enc).data)
        ++ '\n' :: (('p' :: 'o' :: 's' :: 't' :: ':' :: ' ' :: (dumpValue postName).data) ++ ['\n'])).all isWsChar) = false := by
    simp [isWsChar]
  simp only [hall, Bool.false_eq_true, if_false]
  have hs1 : '\n' ∉ ('e' :: 'n' :: 'c' :: 'o' :: 'd' :: 'i' :: 'n' :: 'g' :: ':' :: ' ' :: (dumpValue enc).data) := by
    simp [List.mem_cons]
    exact he1
  have hs2 : '\n' ∉ ('p' :: 'o' :: 's' :: 't' :: ':' :: ' ' :: (dumpValue postName).data) := by
    simp [List.mem_cons]
    exact hp1
  rw [splitOnChar_append_cons _ hs1, splitOnChar_append_cons [] hs2]
  simp only [splitOnChar]
  simp [linesToEntries, parseLine_encoding, parseLine_post, parseValue_dumpValue,
    buildMap, assocInsert, mk_data]

/-- Join strings with a separator (`str.join`). -/
def joinSep (sep : String) : List String → String
  | [] => ""
  | [c] => c
  | c :: cs => c ++ sep ++ joinSep sep cs

/-- A `pathlib` path: an absolute flag plus components. The `pathlib`
constructor drops empty and `.` components, which `PPath.parse` mirrors. -/
structure PPath where
  absolute : Bool
  components : List String
deriving DecidableEq, Repr

/-- Parse a path string the way the `pathlib.Path` constructor does. -/
def PPath.parse (s : String) : PPath :=
  { absolute :=
      match s.data with
      | '/' :: _ => true
      | _ => false
    components :=
      ((splitOnChar '/' s.data).map String.mk).filter (fun c => c ≠ "" && c ≠ ".") }

/-- Render a path back to a string (`str(path)`). -/
def PPath.toStr (p : PPath) : String :=
  (if p.absolute then "/" else "") ++ joinSep "/" p.components

/-- The `/` operator of `pathlib`: an absolute right operand replaces the
left one. -/
def PPath.join (p q : PPath) : PPath :=
  if q.absolute then q else ⟨p.absolute, p.components ++ q.components⟩

/-- Textual canonicalization of `os.path.abspath`: `.` components vanish and
`..` pops the previous component (at the root it stays at the root). -/
def normComponents (cs : List String) : List String :=
  cs.foldl
    (fun acc c =>
      if c = "." then acc
      else if c = ".." then acc.dropLast
      else acc ++ [c]) []

/-- Embeds `normalize_path` (src/pblog/package.py lines 49-65): a relative
path raises `ValueError`, otherwise the path is canonicalized through
`os.path.abspath`. -/
def normalize_path (p : PPath) : Except PyErr PPath :=
  if !p.absolute then .error .valueError
  else .ok ⟨true, normComponents p.components⟩

/-- Whether `root` occurs in `target.parents`: pathlib parents are the
proper component prefixes (with the same anchor). -/
def PPath.isParent (root target : PPath) : Bool :=
  (root.absolute = target.absolute : Bool) &&
  root.components.length < target.components.length &&
  decide (target.components.take root.components.length = root.components)

/-- Embeds the `ResourceHandler` attributes (src/pblog/package.py lines
111-126). The Python constructor refuses absolute paths with `ValueError`;
the embedding keeps the structure plain and models that check at each
construction site. -/
structure ResourceHandler where
  content : Bytes
  path : PPath
deriving DecidableEq, Repr

/-- Embeds `ResourceHandler.save` (src/pblog/package.py lines 128-158).
`rootExists` and `rootIsDir` stand for the filesystem facts about
`root_path`: `root_path.resolve()` raises `FileNotFoundError` when the root
does not exist (Python 3.5 semantics) and its normalized return value is
discarded by the source, so the descendant check compares against the raw
`root_path`. Success returns the canonicalized target path together with
the bytes that the final `open`/`write` writes there; an error writes
nothing. -/
def ResourceHandler.save (r : ResourceHandler) (rootPath : PPath)
    (rootExists rootIsDir : Bool) : Except PyErr (PPath × Bytes) :=
  if !rootExists then .error .fileNotFoundError
  else if !rootIsDir then
    .error .notADirectoryError
  else
    match normalize_path (rootPath.join r.path) with
    | .error e => .error e
    | .ok resource_path =>
      if !(rootPath.isParent resource_path) then
        .error (.packageException
          ("resource path " ++ resource_path.toStr ++
            " is not within given root directory " ++ rootPath.toStr))
      else
        .ok (resource_path, r.content)

/-- Modelled from the cerberus validator of `extract_package_meta`
(src/pblog/package.py lines 176-185): the two required string fields `post`
and `encoding`, nothing else (cerberus rejects unknown fields by default).
Returns the accumulated field-to-message error map. -/
def validate_package_meta (m : List (String × YVal)) : List (String × String) :=
  ((m.filter (fun kv => !(["post", "encoding"].contains kv.1))).map
      (fun kv => (kv.1, "unknown field")))
  ++ (match alookup m "post" with
      | none => [("post", "required field")]
      | some (.scalar (.str _)) => []
      | some _ => [("post", "must be of string type")])
  ++ (match alookup m "encoding" with
      | none => [("encoding", "required field")]
      | some (.scalar (.str _)) => []
      | some _ => [("encoding", "must be of string type")])

/-- Integer-or-null, the value schema of the `id` dict. -/
def isIntOrNull : YScalar → Bool
  | .int _ => true
  | .null => true
  | _ => false

/-- The `^[A-Za-z0-9_-]+$` regex of the `slug` field. -/
def slugRegex (s : String) : Bool :=
  s ≠ "" && s.data.all (fun c => c.isAlphanum || c = '_' || c = '-')

/-- Modelled from the cerberus validator of `normalize_post_meta`
(src/pblog/package.py lines 208-236): `id` an optional dict of nullable
integers, `title` and `category` required strings, `slug` an optional
nullable string matching `^[A-Za-z0-9_-]+$`, `published_date` an optional
nullable date; unknown fields are rejected. All field errors are
accumulated into one error map. -/
def validate_post_meta (m : List (String × YVal)) : List (String × String) :=
  ((m.filter (fun kv =>
      !(["id", "title", "slug", "category", "published_date"].contains kv.1))).map
      (fun kv => (kv.1, "unknown field")))
  ++ (match alookup m "id" with
      | none => []
      | some (.map im) =>
          if im.all (fun kv => isIntOrNull kv.2) then []
          else [("id", "must be of integer type")]
      | some _ => [("id", "must be of dict type")])
  ++ (match alookup m "title" with
      | none => [("title", "required field")]
      | some (.scalar (.str _)) => []
      | some _ => [("title", "must be of string type")])
  ++ (match alookup m "slug" with
      | none => []
      | some (.scalar .null) => []
      | some (.scalar (.str s)) =>
          if slugRegex s then [] else [("slug", "value does not match regex")]
      | some _ => [("slug", "must be of string type")])
  ++ (match alookup m "category" with
      | none => [("category", "required field")]
      | some (.scalar (.str _)) => []
      | some _ => [("category", "must be of string type")])
  ++ (match alookup m "published_date" with
      | none => []
      | some (.scalar .null) => []
      | some (.scalar (.date _)) => []
      | some _ => [("published_date", "must be of date type")])

/-- The cerberus `normalized` defaults of the post schema: absent `id`
becomes the empty dict, absent `slug` and `published_date` become null. -/
def applyPostDefaults (m : List (String × YVal)) : List (String × YVal) :=
  m ++ (if (alookup m "id").isNone then [("id", .map [])] else [])
    ++ (if (alookup m "slug").isNone then [("slug", .scalar .null)] else [])
    ++ (if (alookup m "published_date").isNone then [("published_date", .scalar .null)] else [])

/-- Embeds `normalize_post_meta` (src/pblog/package.py lines 202-242). A
non-mapping document makes cerberus raise `DocumentError` before any schema
check runs. -/
def normalize_post_meta (doc : Option Yaml) : Except PyErr (List (String × YVal)) :=
  match doc with
  | some (.map m) =>
      if validate_post_meta m = [] then .ok (applyPostDefaults m)
      else .error (.packageValidationError (validate_post_meta m))
  | _ => .error .documentError

/-- A tar member name, kept as its path components. -/
abbrev TarName := List String

/-- An opened tar archive: member names with member bytes, in archive
order. -/
abbrev Tar := List (TarName × Bytes)

/-- `TarFile.getmember` semantics: of several members with one name, the
last occurrence wins. -/
def tarLookup (tar : Tar) (name : TarName) : Option Bytes :=
  match tar with
  | [] => none
  | (n, b) :: rest =>
    match tarLookup rest name with
    | some r => some r
    | none => if n = name then some b else none

/-- Embeds `extract_package_meta` (src/pblog/package.py lines 161-199): the
manifest entry is read and decoded with the default codec (UTF-8) no matter
what encoding it declares; a missing entry or malformed YAML becomes
`PackageException`, a `None` document the dedicated empty-file
`PackageException`, a schema violation `PackageValidationError`, and a
decode failure escapes as `UnicodeDecodeError` (the `except` clauses catch
only `yaml.YAMLError` and `KeyError`). A present, parseable document that
is not a mapping (a scalar or a sequence) makes `cerberus.Validator.validate`
raise `DocumentError`, which no clause catches either. -/
def extract_package_meta (tar : Tar) : Except PyErr (List (String × YVal)) :=
  match tarLookup tar ["package.yml"] with
  | none => .error (.packageException "The package does not contains a package.yml file")
  | some b =>
    match utf8Decode b with
    | .error _ => .error .unicodeDecodeError
    | .ok s =>
      match yamlLoad s with
      | .error _ => .error (.packageException "The package.yml file does not contain valid YAML")
      | .ok none => .error (.packageException "package.yml file is empty")
      | .ok (some (.map m)) =>
          if validate_package_meta m = [] then .ok m
          else .error (.packageValidationError (validate_package_meta m))
      | .ok (some (.scalar _)) => .error .documentError
      | .ok (some (.list _)) => .error .documentError

/-- The error classes that the specification's dichotomy for
`extract_package_meta` names: `PackageException` and
`PackageValidationError`. -/
def inPackageTaxonomy : PyErr → Bool
  | .packageException _ => true
  | .packageValidationError _ => true
  | _ => false

/-- `bytes.decode(encoding)`: the model supports the single codec name
`utf-8`; packages declaring other encodings are outside the model. -/
def decodeWith (enc : String) (b : Bytes) : Except Unit String :=
  if enc = "utf-8" then utf8Decode b else .error ()

/-- Universal-newline translation: a `\r\n` pair and a lone `\r` both become
`\n`. Python's text-mode `open` applies it to everything it reads, and the
`markdown` library applies the same normalization to its input before
splitting it into lines. -/
def univNl : List Char → List Char
  | [] => []
  | '\r' :: '\n' :: rest => '\n' :: univNl rest
  | '\r' :: rest => '\n' :: univNl rest
  | c :: rest => c :: univNl rest

/-- Whether the post bytes decode (under the declared encoding) to text
containing a carriage return: exactly the sources that text-mode reading
rewrites. -/
def crInDecoded (enc : String) (b : Bytes) : Bool :=
  match decodeWith enc b with
  | .ok s => s.data.any (fun c => c = '\r')
  | .error _ => false

theorem univNl_of_not_mem {l : List Char} (h : '\r' ∉ l) : univNl l = l := by
  induction l with
  | nil => rfl
  | cons c r ih =>
    have hc : c ≠ '\r' := fun he => h (he ▸ List.mem_cons_self c r)
    have hr : '\r' ∉ r := fun hm => h (List.mem_cons_of_mem _ hm)
    rw [univNl.eq_def]
    split
    · rename_i heq
      exact absurd heq (by simp)
    · rename_i heq
      injection heq with h1 _
      exact absurd h1 hc
    · rename_i heq
      injection heq with h1 _
      exact absurd h1 hc
    · rename_i heq
      injection heq with h1 h2
      subst h1
      subst h2
      rw [ih hr]

/-- The loop of `extract_package_resources` (src/pblog/package.py lines
262-268). Its `except KeyError` branch lacks a `continue`: after a missing
member the handler is still appended from the previous iteration's file
object `res_content`, which on the first iteration is unbound
(`UnboundLocalError`, modelled as `PyErr.nameError`). A consumed file
object's repeated `read()` is modelled as rereading the bytes; no claim
depends on the content of such a garbage entry. The `ResourceHandler`
constructor rejects absolute paths with `ValueError`. -/
def extractResourcesLoop (tar : Tar) :
    List PPath → Option Bytes → List ResourceHandler → List String →
      Except PyErr (List ResourceHandler × List String)
  | [], _, resources, not_found => .ok (resources, not_found)
  | p :: rest, res_content, resources, not_found =>
    let next :=
      match tarLookup tar ("resources" :: p.components) with
      | some b => (some b, not_found)
      | none => (res_content, not_found ++ [p.toStr])
    match next.1 with
    | none => .error .nameError
    | some b =>
      if p.absolute then .error .valueError
      else extractResourcesLoop tar rest next.1 (resources ++ [⟨b, p⟩]) next.2

/-- Embeds `extract_package_resources` (src/pblog/package.py lines
245-273). -/
def extract_package_resources (tar : Tar) (resource_paths : List PPath) :
    Except PyErr (List ResourceHandler) :=
  match extractResourcesLoop tar resource_paths none [] [] with
  | .error e => .error e
  | .ok (resources, not_found) =>
    if not_found ≠ [] then .error (.resourcesNotFound not_found) else .ok resources

/-- The attributes the package code reads off the module-level markdown
parser after `convert`: the front-matter `meta`, the `resource_path`
reference strings (first pair components) and the `summary`. -/
structure MdOut where
  meta : Option Yaml
  resourcePath : List String
  summary : Option String

/-- Embeds the `Package` attributes (src/pblog/package.py lines 415-442);
`htmlContent` is the `_html_content` cache, `None` until generated. -/
structure Package where
  post_encoding : String
  post_id : List (String × Option Int)
  post_title : String
  post_slug : Option String
  category_name : String
  published_date : Option PDate
  summary : Option String
  markdown_content : String
  resources : List ResourceHandler
  htmlContent : Option String
deriving DecidableEq, Repr

/-- `post_meta[k]` where the schema guarantees a string. -/
def metaStr (nm : List (String × YVal)) (k : String) : String :=
  match alookup nm k with
  | some (.scalar (.str s)) => s
  | _ => ""

/-- `post_meta[k]` where the schema guarantees a nullable string. -/
def metaOptStr (nm : List (String × YVal)) (k : String) : Option String :=
  match alookup nm k with
  | some (.scalar (.str s)) => some s
  | _ => none

/-- `post_meta[k]` where the schema guarantees a nullable date. -/
def metaDate (nm : List (String × YVal)) (k : String) : Option PDate :=
  match alookup nm k with
  | some (.scalar (.date d)) => some d
  | _ => none

/-- An `id` dict value: integer or null. -/
def scalarToOptInt : YScalar → Option Int
  | .int n => some n
  | _ => none

/-- `post_meta['id']`, a dict of nullable integers. -/
def metaDict (nm : List (String × YVal)) (k : String) : List (String × Option Int) :=
  match alookup nm k with
  | some (.map im) => im.map (fun kv => (kv.1, scalarToOptInt kv.2))
  | _ => []

/-- Embeds `read_package` (src/pblog/package.py lines 276-329): `tar` is the
opened archive, `parser` the module-level markdown parser. A missing post
member escapes as the bare `KeyError` of `tar.extractfile`. -/
def read_package (parser : String → MdOut) (tar : Tar) : Except PyErr Package :=
  match extract_package_meta tar with
  | .error e => .error e
  | .ok package_meta =>
    let post_member := metaStr package_meta "post"
    let post_encoding := metaStr package_meta "encoding"
    match tarLookup tar [post_member] with
    | none => .error .keyError
    | some postBytes =>
      match decodeWith post_encoding postBytes with
      | .error _ => .error .unicodeDecodeError
      | .ok post_md_content =>
        let md := parser post_md_content
        match normalize_post_meta md.meta with
        | .error e => .error e
        | .ok post_meta =>
          match extract_package_resources tar (md.resourcePath.map PPath.parse) with
          | .error e => .error e
          | .ok resources =>
            .ok { post_encoding := post_encoding
                  post_id := metaDict post_meta "id"
                  post_title := metaStr post_meta "title"
                  post_slug := metaOptStr post_meta "slug"
                  category_name := metaStr post_meta "category"
                  published_date := metaDate post_meta "published_date"
                  summary := md.summary
                  markdown_content := post_md_content
                  resources := resources
                  htmlContent := none }

/-- First-match lookup of a relative path in the post's directory. -/
def plookup : List (PPath × Bytes) → PPath → Option Bytes
  | [], _ => none
  | (p, b) :: r, q => if p = q then some b else plookup r q

/-- The loop of `get_resources` (src/pblog/package.py lines 336-346); `dir`
maps the existing relative file paths of the post's directory to their
bytes (all entries are regular files, so a lookup miss on a nonempty path
is exactly a `resolve()` failure). A reference with no path components
resolves to the post directory itself, which exists but is never a regular
file, so the `is_file` check sends it to `not_found`. -/
def getResourcesLoop (dir : List (PPath × Bytes)) :
    List String → List (PPath × Bytes) → List String →
      List (PPath × Bytes) × List String
  | [], resources, not_found => (resources, not_found)
  | ref :: rest, resources, not_found =>
    if (PPath.parse ref).components = [] then
      getResourcesLoop dir rest resources (not_found ++ [ref])
    else
      match plookup dir (PPath.parse ref) with
      | none => getResourcesLoop dir rest resources (not_found ++ [ref])
      | some b => getResourcesLoop dir rest (resources ++ [(PPath.parse ref, b)]) not_found

/-- Embeds `get_resources` (src/pblog/package.py lines 332-351). -/
def get_resources (dir : List (PPath × Bytes)) (res_list : List String) :
    Except PyErr (List (PPath × Bytes)) :=
  match getResourcesLoop dir res_list [] [] with
  | (resources, not_found) =>
    if not_found ≠ [] then .error (.resourcesNotFound not_found) else .ok resources

/-- Embeds `build_package` (src/pblog/package.py lines 354-412): the post
source file has name `postName` (its `post_path.name`) and bytes
`postBytes` inside directory `dir`; the result is the archive written and
the returned `Package`. The source is read through text-mode `open`, which
applies universal-newline translation after decoding, and that translated
text is what is parsed and stored as `markdown_content`; `tar.add` however
archives the raw bytes of the file. The resource loop constructs a
`ResourceHandler` per resource, so an absolute resource path raises
`ValueError` there. -/
def build_package (parser : String → MdOut) (postName : String) (postBytes : Bytes)
    (dir : List (PPath × Bytes)) (encoding : String) : Except PyErr (Tar × Package) :=
  match decodeWith encoding postBytes with
  | .error _ => .error .unicodeDecodeError
  | .ok raw =>
    let markdown_content := String.mk (univNl raw.data)
    let md := parser markdown_content
    match normalize_post_meta md.meta with
    | .error e => .error e
    | .ok post_meta =>
      let package_meta := utf8Encode (yamlDumpMeta postName encoding)
      match get_resources dir md.resourcePath with
      | .error e => .error e
      | .ok resources =>
        if resources.all (fun rb => !rb.1.absolute) then
          .ok (([(["package.yml"], package_meta), ([postName], postBytes)]
                 ++ resources.map (fun rb => ("resources" :: rb.1.components, rb.2)) : Tar),
               { post_title := metaStr post_meta "title"
                 category_name := metaStr post_meta "category"
                 markdown_content := markdown_content
                 summary := md.summary
                 post_encoding := encoding
                 post_id := metaDict post_meta "id"
                 post_slug := metaOptStr post_meta "slug"
                 published_date := metaDate post_meta "published_date"
                 resources := resources.map (fun rb => ⟨rb.2, rb.1⟩)
                 htmlContent := none })
        else .error .valueError

/-- Modelled from `python-slugify` (external dependency) as the spec
describes it: lowercase, non-alphanumeric runs collapsed to single hyphens,
trimmed. -/
def slugify (s : String) : String :=
  joinSep "-"
    (((splitOnChar ' '
        (s.data.map (fun c => if c.isAlphanum then c.toLower else ' '))).map
          String.mk).filter (· ≠ ""))

/-- Embeds `Package.set_default_values` (src/pblog/package.py lines
460-470); `today` stands for the value of `datetime.date.today()`. -/
def Package.set_default_values (p : Package) (today : PDate) : Package :=
  let p1 :=
    match p.post_slug with
    | none => { p with post_slug := some (slugify p.post_title) }
    | some _ => p
  match p1.published_date with
  | none => { p1 with published_date := some today }
  | some _ => p1

/-- Python `dict.update`: existing keys are overwritten in place, new keys
appended in order. -/
def dictUpdate {α : Type} (d u : List (String × α)) : List (String × α) :=
  u.foldl (fun acc kv => assocInsert acc kv.1 kv.2) d

/-- Serialize a scalar for the injected front matter. -/
def dumpScalar : YScalar → String
  | .str s => s
  | .int n => toString n
  | .date d => toString d.year ++ "-" ++ toString d.month ++ "-" ++ toString d.day
  | .null => "null"
  | .bool b => if b then "true" else "false"

/-- Serialize one mapping entry for the injected front matter. -/
def dumpEntry : String × YVal → String
  | (k, .scalar v) => k ++ ": " ++ dumpScalar v ++ "\n"
  | (k, .map im) =>
      k ++ ":\n" ++ joinSep "" (im.map (fun kv => "  " ++ kv.1 ++ ": " ++ dumpScalar kv.2 ++ "\n"))

/-- Modelled from `markdown_extra.meta.inject_meta` (external dependency):
rewrites the text so that its front matter carries the given metadata
(`update=True`). The claims use it only as a deterministic rewrite, so the
model prepends a serialized front-matter block to the text. -/
def inject_meta (content : String) (meta : List (String × YVal)) : String :=
  "---\n" ++ joinSep "" (meta.map dumpEntry) ++ "---\n" ++ content

/-- `Option Int` to its `id`-dict scalar. -/
def optIntToScalar : Option Int → YScalar
  | some n => .int n
  | none => .null

/-- `Option String` to its front-matter scalar. -/
def optStrToScalar : Option String → YScalar
  | some s => .str s
  | none => .null

/-- `Option PDate` to its front-matter scalar. -/
def optDateToScalar : Option PDate → YScalar
  | some d => .date d
  | none => .null

/-- The `need_update` scan of `Package.update_post_meta`
(src/pblog/package.py lines 485-500): an incoming `post_id` entry that is
absent or differs, a differing `post_slug`, or a differing
`published_date`. -/
def needUpdate (p : Package) (post_id : List (String × Option Int))
    (post_slug : Option String) (published_date : Option PDate) : Bool :=
  post_id.any (fun kv =>
    match alookup p.post_id kv.1 with
    | some v => decide (v ≠ kv.2)
    | none => true)
  || decide (post_slug ≠ p.post_slug)
  || decide (published_date ≠ p.published_date)

/-- Embeds `Package.update_post_meta` (src/pblog/package.py lines 472-518):
no change returns the package untouched with `false`; otherwise `post_id`
is merged, `post_slug` and `published_date` overwritten, the markdown
rewritten through `inject_meta` with the merged values, and `true`
returned. -/
def Package.update_post_meta (p : Package) (post_id : List (String × Option Int))
    (post_slug : Option String) (published_date : Option PDate) : Package × Bool :=
  if needUpdate p post_id post_slug published_date then
    let pid := dictUpdate p.post_id post_id
    let new_content := inject_meta p.markdown_content
      [("id", .map (pid.map (fun kv => (kv.1, optIntToScalar kv.2)))),
       ("slug", .scalar (optStrToScalar post_slug)),
       ("published_date", .scalar (optDateToScalar published_date))]
    ({ p with post_id := pid
              post_slug := post_slug
              published_date := published_date
              markdown_content := new_content }, true)
  else (p, false)

/-- The loop of `MetaPreprocessor.run`
(src/pblog/markdown/extensions/meta.py lines 29-44), carrying the
`inside_meta` flag and the `meta` and `new_lines` accumulators. The first
delimiter line is already consumed by the caller. -/
def metaLoop : List String → Bool → List String → List String → List String × List String
  | [], _, meta, new_lines => (meta, new_lines)
  | l :: rest, inside, meta, new_lines =>
    if l = "---" then metaLoop rest false meta new_lines
    else if inside then metaLoop rest inside (meta ++ [l]) new_lines
    else if new_lines ≠ [] ∨ l ≠ "" then metaLoop rest inside meta (new_lines ++ [l])
    else metaLoop rest inside meta new_lines

/-- Embeds `MetaPreprocessor.run`
(src/pblog/markdown/extensions/meta.py lines 21-49): on an empty line list
`lines[0]` raises `IndexError`; without a leading delimiter the lines are
returned unchanged and the meta is `None`; otherwise the collected meta
lines are joined with carriage returns and handed to `yaml.load`, whose
failure propagates out of the preprocessor as a `yaml.YAMLError`. -/
def metaRun (lines : List String) : Except PyErr (Option Yaml × List String) :=
  match lines with
  | [] => .error .indexError
  | l0 :: rest =>
    if l0 ≠ "---" then .ok (none, lines)
    else
      match yamlLoad (joinSep "\r" (metaLoop rest true [] []).1) with
      | .error _ => .error .yamlError
      | .ok m => .ok (m, (metaLoop rest true [] []).2)

/-- The reference scanner modelled from
`markdown_extra.resource_path.ResourcePathExtension` (external dependency):
collects the targets of markdown link or image references, the characters
between a literal bracket-parenthesis pair and the closing parenthesis. -/
def scanRes : List Char → Option (List Char) → List (List Char)
  | [], _ => []
  | ')' :: rest, some acc => acc.reverse :: scanRes rest none
  | c :: rest, some acc => scanRes rest (some (c :: acc))
  | ']' :: '(' :: rest, none => scanRes rest (some [])
  | _ :: rest, none => scanRes rest none

/-- A concrete markdown parser instance: the repository's own meta
preprocessor feeding the front-matter meta, the reference scanner feeding
`resource_path`, and no summary. Like `markdown.Markdown.convert`, it
normalizes `\r\n` and `\r` to `\n` before splitting the text into lines.
It instantiates the `parser` argument of `build_package` / `read_package`
on closed inputs; a front matter that does not parse yields `None` meta
here (such inputs appear in no claim). -/
def mdParse (content : String) : MdOut :=
  { meta :=
      match metaRun ((splitOnChar '\n' (univNl content.data)).map String.mk) with
      | .ok (m, _) => m
      | .error _ => none
    resourcePath := (scanRes (univNl content.data) none).map String.mk
    summary := none }

theorem tarLookup_eq_none_iff (l : Tar) (name : TarName) :
    tarLookup l name = none ↔ ∀ e ∈ l, e.1 ≠ name := by
  induction l with
  | nil => simp [tarLookup]
  | cons e rest ih =>
    obtain ⟨n, b⟩ := e
    constructor
    · intro h
      rw [tarLookup] at h
      match hr : tarLookup rest name with
      | some r => rw [hr] at h; exact absurd h (by simp)
      | none =>
        rw [hr] at h
        intro e he
        rcases List.mem_cons.1 he with he | he
        · subst he
          intro hn
          rw [if_pos hn] at h
          exact absurd h (by simp)
        · exact ih.1 hr e he
    · intro h
      rw [tarLookup]
      have hrest : tarLookup rest name = none :=
        ih.2 (fun e he => h e (List.mem_cons_of_mem _ he))
      rw [hrest, if_neg (h (n, b) (List.mem_cons_self _ _))]

theorem tarLookup_mem {l : Tar} {name : TarName} {b : Bytes}
    (h : tarLookup l name = some b) : (name, b) ∈ l := by
  induction l with
  | nil => simp [tarLookup] at h
  | cons e rest ih =>
    obtain ⟨n, c⟩ := e
    rw [tarLookup] at h
    match hr : tarLookup rest name with
    | some r =>
      rw [hr] at h
      cases h
      exact List.mem_cons_of_mem _ (ih hr)
    | none =>
      rw [hr] at h
      by_cases hn : n = name
      · rw [if_pos hn] at h
        cases h
        subst hn
        exact List.mem_cons_self _ _
      · rw [if_neg hn] at h
        exact absurd h (by simp)

theorem tarLookup_eq_some {l : Tar} {name : TarName} {b : Bytes}
    (hin : (name, b) ∈ l) (huniq : ∀ e ∈ l, e.1 = name → e.2 = b) :
    tarLookup l name = some b := by
  induction l with
  | nil => simp at hin
  | cons e rest ih =>
    obtain ⟨n, c⟩ := e
    rw [tarLookup]
    match hr : tarLookup rest name with
    | some r =>
      have := huniq (name, r) (List.mem_cons_of_mem _ (tarLookup_mem hr)) rfl
      simp at this
      rw [this]
    | none =>
      rcases List.mem_cons.1 hin with he | he
      · cases he
        rw [if_pos rfl]
      · exact absurd hr (by rw [tarLookup_eq_none_iff]; push_neg; exact ⟨(name, b), he, rfl⟩)

/-- C7: `set_default_values` derives a missing `post_slug` from `post_title`
by slugification and a missing `published_date` from the current date, a
present `published_date` (or `post_slug`) is never overwritten, and the
operation is idempotent: once both fields are set a second call, on any
later day, changes nothing. -/
theorem set_default_values_spec (p : Package) (t t2 : PDate) :
    (p.set_default_values t).set_default_values t2 = p.set_default_values t ∧
    (p.post_slug = none →
      (p.set_default_values t).post_slug = some (slugify p.post_title)) ∧
    (∀ s, p.post_slug = some s → (p.set_default_values t).post_slug = some s) ∧
    (p.published_date = none → (p.set_default_values t).published_date = some t) ∧
    (∀ d, p.published_date = some d →
      (p.set_default_values t).published_date = some d) := by
  unfold Package.set_default_values
  rcases hs : p.post_slug with _ | s <;> rcases hd : p.published_date with _ | d <;>
    simp [hs, hd]

/-- C7 witness: the scenario of the spec, `Package(post_title="A title",
post_slug=None, published_date=None)` gains slug `a-title` and the current
date, and a second call changes nothing. -/
theorem set_default_values_witness :
    (let p : Package :=
      { post_encoding := "utf-8", post_id := [], post_title := "A title",
        post_slug := none, category_name := "A topic",
        published_date := none, summary := none, markdown_content := "",
        resources := [], htmlContent := none }
     let t : PDate := ⟨2017, 3, 30⟩
     (p.set_default_values t).set_default_values t = p.set_default_values t ∧
     (p.set_default_values t).post_slug = some "a-title" ∧
     (p.set_default_values t).published_date = some t) := by
  refine ⟨(set_default_values_spec _ _ _).1, ?_, (set_default_values_spec _ _ ⟨2017, 3, 30⟩).2.2.2.1 rfl⟩
  rw [(set_default_values_spec _ ⟨2017, 3, 30⟩ ⟨2017, 3, 30⟩).2.1 rfl]
  decide

/-- C3: `ResourceHandler.save` joins the root directory and the handler's
relative path, canonicalizes the joined path through `normalize_path`, and
refuses with `PackageException` — before any write — whenever the
canonicalized target is not a descendant of the root directory (for any
existing root directory given absolutely, e.g. when the relative path
escapes through `..` segments). The error value carries no write action:
`save` only returns a target-bytes pair on success. -/
theorem resource_save_escape (r : ResourceHandler) (root : PPath)
    (hrel : r.path.absolute = false) (habs : root.absolute = true)
    (hesc : root.isParent ⟨true, normComponents (root.components ++ r.path.components)⟩ = false) :
    r.save root true true =
      .error (.packageException
        ("resource path " ++
          PPath.toStr ⟨true, normComponents (root.components ++ r.path.components)⟩ ++
          " is not within given root directory " ++ root.toStr)) := by
  unfold ResourceHandler.save
  simp only [Bool.not_true, Bool.false_eq_true, if_false]
  have hjoin : root.join r.path = ⟨true, root.components ++ r.path.components⟩ := by
    unfold PPath.join
    rw [hrel]
    simp [← habs]
  rw [hjoin]
  unfold normalize_path
  simp only [Bool.not_true, Bool.false_eq_true, if_false]
  rw [hesc]
  simp

/-- C3 witness: the scenario of `test_ensure_no_root_path_escape`: a handler
with relative path `../spam` saved under the existing directory `/tmp/ham`
resolves to `/tmp/spam`, escapes the root, and fails with
`PackageException`. -/
theorem resource_save_escape_witness :
    (ResourceHandler.mk [137, 80] (PPath.parse "../spam")).save (PPath.parse "/tmp/ham") true true =
      .error (.packageException
        ("resource path " ++
          PPath.toStr ⟨true, normComponents ((PPath.parse "/tmp/ham").components ++ (PPath.parse "../spam").components)⟩ ++
          " is not within given root directory " ++ (PPath.parse "/tmp/ham").toStr)) :=
  resource_save_escape _ _ (by decide) (by decide) (by decide)


instance exceptDecEq {ε α : Type} [DecidableEq ε] [DecidableEq α] :
    DecidableEq (Except ε α)
  | .ok a, .ok b =>
    if h : a = b then .isTrue (by rw [h]) else .isFalse (by intro he; cases he; exact h rfl)
  | .ok _, .error _ => .isFalse (by intro he; cases he)
  | .error _, .ok _ => .isFalse (by intro he; cases he)
  | .error e, .error f =>
    if h : e = f then .isTrue (by rw [h]) else .isFalse (by intro he; cases he; exact h rfl)

/-- C9: the `package.yml` entry is decoded with the default UTF-8 codec no
matter what encoding value the manifest itself declares (the declared
encoding is only ever applied to the post member), and a manifest whose
bytes do not decode makes `extract_package_meta` — and therefore
`read_package` — raise `UnicodeDecodeError`, which is outside the
`PackageException`/`PackageValidationError` taxonomy. -/
theorem manifest_decoded_as_utf8 (tar : Tar) (b : Bytes) (parser : String → MdOut)
    (h : tarLookup tar ["package.yml"] = some b)
    (hbad : utf8Decode b = .error ()) :
    extract_package_meta tar = .error .unicodeDecodeError ∧
    read_package parser tar = .error .unicodeDecodeError ∧
    (∀ msg, PyErr.unicodeDecodeError ≠ .packageException msg) ∧
    (∀ errs, PyErr.unicodeDecodeError ≠ .packageValidationError errs) := by
  have hmeta : extract_package_meta tar = .error .unicodeDecodeError := by
    unfold extract_package_meta
    simp only [h, hbad]
  have hread : read_package parser tar = .error .unicodeDecodeError := by
    unfold read_package
    simp only [hmeta]
  exact ⟨hmeta, hread, fun msg => by simp, fun errs => by simp⟩

/-- C9 witness: an archive whose manifest declares `encoding: iso-8859-1`
followed by an undecodable byte raises `UnicodeDecodeError`. -/
theorem manifest_decoded_as_utf8_witness :
    read_package mdParse
      [(["package.yml"], utf8Encode "encoding: iso-8859-1\npost: post.md\n" ++ [55296])] =
      .error .unicodeDecodeError :=
  (manifest_decoded_as_utf8 _ (utf8Encode "encoding: iso-8859-1\npost: post.md\n" ++ [55296])
    mdParse (by decide) (by decide)).2.1

/-- C10: for an archive whose manifest is schema-valid but which has no
member named by the manifest's `post` field, `read_package` raises the
bare `KeyError` of `tar.extractfile`, not `PackageException` or another
error of the package taxonomy. -/
theorem read_package_missing_post_member (parser : String → MdOut) (tar : Tar)
    (m : List (String × YVal)) (postName : String)
    (hm : extract_package_meta tar = .ok m)
    (hpost : alookup m "post" = some (.scalar (.str postName)))
    (hmiss : tarLookup tar [postName] = none) :
    read_package parser tar = .error .keyError ∧
    (∀ msg, PyErr.keyError ≠ .packageException msg) ∧
    (∀ errs, PyErr.keyError ≠ .packageValidationError errs) ∧
    (∀ res, PyErr.keyError ≠ .resourcesNotFound res) := by
  have hname : metaStr m "post" = postName := by
    unfold metaStr
    rw [hpost]
  have hread : read_package parser tar = .error .keyError := by
    unfold read_package
    simp only [hm, hname, hmiss]
  exact ⟨hread, fun msg => by simp, fun errs => by simp, fun res => by simp⟩

/-- C10 witness: a schema-valid manifest naming `post.md` inside an archive
with no `post.md` member makes `read_package` raise `KeyError`. -/
theorem read_package_missing_post_member_witness :
    read_package mdParse [(["package.yml"], utf8Encode "encoding: utf-8\npost: post.md\n")] =
      .error .keyError :=
  (read_package_missing_post_member mdParse _
    [("encoding", .scalar (.str "utf-8")), ("post", .scalar (.str "post.md"))] "post.md"
    (by decide) (by decide) (by decide)).1

/-- C2, evaluated at the failing input of the claim's own scenario: an
archive whose post body references `img.png` while no `resources/img.png`
member exists. `extract_package_resources` catches the `KeyError` of the
miss but its loop lacks a `continue`, so the very next statement reads the
unbound local `res_content` and the call dies with `UnboundLocalError`
(`PyErr.nameError`) instead of the `ResourcesNotFound(["img.png"])` that
the docstring of `extract_package_resources`, the spec and the claim
promise. -/
theorem read_package_missing_resource_unbound_local :
    read_package mdParse
      [(["package.yml"], utf8Encode "encoding: utf-8\npost: post.md\n"),
       (["post.md"], utf8Encode "---\ntitle: T\ncategory: C\n---\nsee ![x](img.png)")] =
      .error .nameError ∧
    (Except.error PyErr.nameError : Except PyErr Package) ≠
      .error (.resourcesNotFound ["img.png"]) := by
  constructor
  · decide
  · decide

theorem metaLoop_body_ne (rest : List String) (meta nl : List String) (h : nl ≠ []) :
    metaLoop rest false meta nl = (meta, nl ++ rest.filter (· ≠ "---")) := by
  induction rest generalizing nl with
  | nil => simp [metaLoop]
  | cons l r ih =>
    rw [metaLoop]
    by_cases hl : l = "---"
    · rw [if_pos hl, ih nl h]
      simp [hl, List.filter]
    · rw [if_neg hl]
      simp only [Bool.false_eq_true, if_false]
      rw [if_pos (Or.inl h), ih (nl ++ [l]) (by simp)]
      simp [List.filter, hl]

theorem metaLoop_body (rest : List String) (meta : List String) :
    metaLoop rest false meta [] =
      (meta, (rest.filter (· ≠ "---")).dropWhile (· = "")) := by
  induction rest with
  | nil => simp [metaLoop]
  | cons l r ih =>
    rw [metaLoop]
    by_cases hl : l = "---"
    · rw [if_pos hl, ih]
      simp [hl, List.filter]
    · rw [if_neg hl]
      simp only [Bool.false_eq_true, if_false]
      by_cases he : l = ""
      · rw [if_neg (by simp [he]), ih]
        simp [List.filter, hl, List.dropWhile, he]
      · rw [if_pos (Or.inr he), show ([] ++ [l] : List String) = [l] from rfl,
          metaLoop_body_ne r meta [l] (by simp)]
        simp [List.filter, hl, List.dropWhile, he]

theorem metaLoop_inside (rest : List String) (meta : List String) :
    metaLoop rest true meta [] =
      (meta ++ rest.takeWhile (· ≠ "---"),
       ((((rest.dropWhile (· ≠ "---")).drop 1).filter (· ≠ "---")).dropWhile (· = ""))) := by
  induction rest generalizing meta with
  | nil => simp [metaLoop]
  | cons l r ih =>
    rw [metaLoop]
    by_cases hl : l = "---"
    · rw [if_pos hl, metaLoop_body]
      simp [List.takeWhile, List.dropWhile, hl]
    · rw [if_neg hl]
      simp only [if_true]
      rw [ih (meta ++ [l])]
      simp [List.takeWhile, List.dropWhile, hl]

/-- C6 (amended): for markdown whose first line is the `---` delimiter, the
preprocessor hands the lines strictly between the first delimiter and the
next delimiter to the YAML loader as the metadata block, and returns as
body the lines after the closing delimiter with every further `---` line
dropped and every blank line before the first retained line suppressed (not
only a single one); from the first retained line on, the body is preserved
verbatim. -/
theorem metaRun_spec (rest : List String) (m : Option Yaml)
    (h : yamlLoad (joinSep "\r" (rest.takeWhile (· ≠ "---"))) = .ok m) :
    metaRun ("---" :: rest) =
      .ok (m, ((((rest.dropWhile (· ≠ "---")).drop 1).filter (· ≠ "---")).dropWhile (· = ""))) := by
  have hstep : metaRun ("---" :: rest) =
      match yamlLoad (joinSep "\r" (metaLoop rest true [] []).1) with
      | .error _ => .error .yamlError
      | .ok m2 => .ok (m2, (metaLoop rest true [] []).2) := rfl
  rw [hstep, metaLoop_inside]
  simp only [List.nil_append, h]

/-- C6 witness: on `["---", "a: 1", "---", "", "x"]` the metadata block is
`a: 1` and the body is `["x"]`. -/
theorem metaRun_spec_witness :
    metaRun ["---", "a: 1", "---", "", "x"] =
      .ok (some (.map [("a", .scalar (.int 1))]), ["x"]) :=
  metaRun_spec ["a: 1", "---", "", "x"] (some (.map [("a", .scalar (.int 1))])) (by decide)

/-- C6 counterexample: the claim predicts that only a single blank line
after the closing delimiter is suppressed and every other body line is kept
verbatim, so for the input below it predicts the body
`["", "x", "---", "y"]`; the code returns `["x", "y"]`, suppressing both
leading blanks and dropping the later `---` line. -/
theorem metaRun_counterexample :
    metaRun ["---", "a: 1", "---", "", "", "x", "---", "y"] =
      .ok (some (.map [("a", .scalar (.int 1))]), ["x", "y"]) ∧
    (["x", "y"] : List String) ≠ ["", "x", "---", "y"] := by
  constructor
  · decide
  · decide

theorem validate_package_meta_eq_nil_iff (m : List (String × YVal)) :
    validate_package_meta m = [] ↔
      ((∃ s, alookup m "post" = some (.scalar (.str s))) ∧
       (∃ s, alookup m "encoding" = some (.scalar (.str s))) ∧
       ∀ kv ∈ m, kv.1 = "post" ∨ kv.1 = "encoding") := by
  unfold validate_package_meta
  rw [List.append_eq_nil, List.append_eq_nil]
  constructor
  · rintro ⟨⟨hunk, hpost⟩, henc⟩
    refine ⟨?_, ?_, ?_⟩
    · rcases hp : alookup m "post" with _ | v
      · rw [hp] at hpost
        exact absurd hpost (by simp)
      · rcases v with v | mm
        · rcases v with s | n | d | _ | b
          · exact ⟨s, rfl⟩
          · rw [hp] at hpost
            exact absurd hpost (by simp)
          · rw [hp] at hpost
            exact absurd hpost (by simp)
          · rw [hp] at hpost
            exact absurd hpost (by simp)
          · rw [hp] at hpost
            exact absurd hpost (by simp)
        · rw [hp] at hpost
          exact absurd hpost (by simp)
    · rcases hp : alookup m "encoding" with _ | v
      · rw [hp] at henc
        exact absurd henc (by simp)
      · rcases v with v | mm
        · rcases v with s | n | d | _ | b
          · exact ⟨s, rfl⟩
          · rw [hp] at henc
            exact absurd henc (by simp)
          · rw [hp] at henc
            exact absurd henc (by simp)
          · rw [hp] at henc
            exact absurd henc (by simp)
          · rw [hp] at henc
            exact absurd henc (by simp)
        · rw [hp] at henc
          exact absurd henc (by simp)
    · intro kv hkv
      have hkv2 := List.filter_eq_nil_iff.1 (List.map_eq_nil_iff.1 hunk) kv hkv
      exact or_iff_not_imp_left.2 (by simpa using hkv2)
  · rintro ⟨⟨s1, hp⟩, ⟨s2, he⟩, hmem⟩
    rw [hp, he]
    refine ⟨⟨?_, rfl⟩, rfl⟩
    rw [List.map_eq_nil_iff, List.filter_eq_nil_iff]
    intro kv hkv
    rcases hmem kv hkv with h | h <;> simp [h]

/-- C5 (corrected): reading the manifest out of an archive raises
`PackageException` when the `package.yml` entry is absent, loads as the
empty document (with the message `package.yml file is empty`), or is not
parseable YAML; a present, parseable document that is not a mapping (a
scalar or a sequence document) instead escapes as the `DocumentError` that
`cerberus.Validator.validate` raises on a non-mapping, outside the claimed
`PackageException` / `PackageValidationError` dichotomy; a parseable
mapping that does not declare exactly the two required string fields `post`
and `encoding` raises `PackageValidationError` (the last conjunct
identifies the embedded cerberus schema with that condition); a
schema-valid manifest is returned as the metadata mapping. -/
theorem extract_package_meta_spec (tar : Tar) :
    (tarLookup tar ["package.yml"] = none →
      extract_package_meta tar =
        .error (.packageException "The package does not contains a package.yml file")) ∧
    (∀ b s, tarLookup tar ["package.yml"] = some b → utf8Decode b = .ok s →
      (yamlLoad s = .error () →
        extract_package_meta tar =
          .error (.packageException "The package.yml file does not contain valid YAML")) ∧
      (yamlLoad s = .ok none →
        extract_package_meta tar = .error (.packageException "package.yml file is empty")) ∧
      (∀ v, yamlLoad s = .ok (some (.scalar v)) →
        extract_package_meta tar = .error .documentError) ∧
      (∀ items, yamlLoad s = .ok (some (.list items)) →
        extract_package_meta tar = .error .documentError) ∧
      (∀ m, yamlLoad s = .ok (some (.map m)) →
        (validate_package_meta m = [] → extract_package_meta tar = .ok m) ∧
        (validate_package_meta m ≠ [] →
          extract_package_meta tar =
            .error (.packageValidationError (validate_package_meta m))))) ∧
    (∀ m, validate_package_meta m = [] ↔
      ((∃ s, alookup m "post" = some (.scalar (.str s))) ∧
       (∃ s, alookup m "encoding" = some (.scalar (.str s))) ∧
       ∀ kv ∈ m, kv.1 = "post" ∨ kv.1 = "encoding")) := by
  refine ⟨?_, ?_, validate_package_meta_eq_nil_iff⟩
  · intro h
    unfold extract_package_meta
    simp only [h]
  · intro b s hb hs
    refine ⟨?_, ?_, ?_, ?_, ?_⟩
    · intro hy
      unfold extract_package_meta
      simp only [hb, hs, hy]
    · intro hy
      unfold extract_package_meta
      simp only [hb, hs, hy]
    · intro v hy
      unfold extract_package_meta
      simp only [hb, hs, hy]
    · intro items hy
      unfold extract_package_meta
      simp only [hb, hs, hy]
    · intro m hy
      constructor
      · intro hv
        unfold extract_package_meta
        simp only [hb, hs, hy, hv]
        simp
      · intro hv
        unfold extract_package_meta
        simp only [hb, hs, hy, if_neg hv]

/-- C5 witness: an archive whose `package.yml` entry is an empty file makes
`extract_package_meta` raise `PackageException` with the message
`package.yml file is empty`. -/
theorem extract_package_meta_spec_witness :
    extract_package_meta [(["package.yml"], [])] =
      .error (.packageException "package.yml file is empty") :=
  ((extract_package_meta_spec [(["package.yml"], [])]).2.1 [] ""
    (by decide) (by decide)).2.1 (by decide)

/-- C5 counterexample: a present, parseable manifest that is not a mapping
(here the plain scalar document `hello`) makes `cerberus.Validator.validate`
raise `DocumentError`, which is neither a `PackageException` nor a
`PackageValidationError`: the claimed dichotomy misses it. -/
theorem extract_package_meta_counterexample :
    extract_package_meta [(["package.yml"], utf8Encode "hello")] =
      .error .documentError ∧
    inPackageTaxonomy .documentError = false :=
  ⟨by decide, rfl⟩

theorem alookup_assocInsert_self {α : Type} (d : List (String × α)) (k : String) (v : α) :
    alookup (assocInsert d k v) k = some v := by
  induction d with
  | nil => simp [assocInsert, alookup]
  | cons e r ih =>
    obtain ⟨k2, v2⟩ := e
    by_cases h : k2 = k
    · simp [assocInsert, h, alookup]
    · simp [assocInsert, h, alookup, ih]

theorem alookup_assocInsert_ne {α : Type} (d : List (String × α)) (k k2 : String)
    (v : α) (h : k ≠ k2) :
    alookup (assocInsert d k v) k2 = alookup d k2 := by
  induction d with
  | nil => simp [assocInsert, alookup, h]
  | cons e r ih =>
    obtain ⟨k3, v3⟩ := e
    by_cases h3 : k3 = k
    · subst h3
      simp [assocInsert, alookup, h]
    · simp only [assocInsert, if_neg h3, alookup]
      rw [ih]

theorem dictUpdate_cons {α : Type} (d : List (String × α)) (e : String × α)
    (u : List (String × α)) :
    dictUpdate d (e :: u) = dictUpdate (assocInsert d e.1 e.2) u := rfl

theorem alookup_dictUpdate_not_mem {α : Type} (d u : List (String × α)) (k : String)
    (h : k ∉ u.map Prod.fst) : alookup (dictUpdate d u) k = alookup d k := by
  induction u generalizing d with
  | nil => rfl
  | cons e r ih =>
    obtain ⟨k2, v2⟩ := e
    simp only [List.map_cons, List.mem_cons] at h
    push_neg at h
    obtain ⟨h1, h2⟩ := h
    rw [dictUpdate_cons, ih _ h2, alookup_assocInsert_ne _ _ _ _ (Ne.symm h1)]

theorem alookup_dictUpdate_mem {α : Type} (d u : List (String × α)) (k : String) (v : α)
    (hmem : (k, v) ∈ u) (hnodup : (u.map Prod.fst).Nodup) :
    alookup (dictUpdate d u) k = some v := by
  induction u generalizing d with
  | nil => simp at hmem
  | cons e r ih =>
    obtain ⟨k2, v2⟩ := e
    rw [dictUpdate_cons]
    rw [List.map_cons, List.nodup_cons] at hnodup
    rcases List.mem_cons.1 hmem with he | he
    · cases he
      rw [alookup_dictUpdate_not_mem _ _ _ hnodup.1, alookup_assocInsert_self]
    · exact ih _ he hnodup.2

theorem needUpdate_eq_false_iff (p : Package) (pid : List (String × Option Int))
    (slug : Option String) (pd : Option PDate) :
    needUpdate p pid slug pd = false ↔
      ((∀ kv ∈ pid, alookup p.post_id kv.1 = some kv.2) ∧
       slug = p.post_slug ∧ pd = p.published_date) := by
  unfold needUpdate
  rw [Bool.or_eq_false_iff, Bool.or_eq_false_iff, List.any_eq_false]
  simp only [decide_eq_false_iff_not, not_not]
  constructor
  · rintro ⟨⟨h1, h2⟩, h3⟩
    refine ⟨fun kv hkv => ?_, h2, h3⟩
    have hx := h1 kv hkv
    rcases hl : alookup p.post_id kv.1 with _ | v
    · rw [hl] at hx
      simp at hx
    · rw [hl] at hx
      simp at hx
      rw [hx]
  · rintro ⟨h1, h2, h3⟩
    refine ⟨⟨fun kv hkv => ?_, h2⟩, h3⟩
    rw [h1 kv hkv]
    simp

/-- C4 (amended): `update_post_meta` returns `false` and leaves the package
completely unmutated when every incoming `post_id` entry already matches
key by key and `post_slug` and `published_date` equal the current values;
otherwise it merges `post_id`, overwrites `post_slug` and `published_date`,
rewrites `markdown_content` through front-matter injection and returns
`true`. Hence of two calls with the same arguments the second always
returns `false` (so a first call that performed an update gives the
sequence `true` then `false`); a first call whose arguments already match
returns `false` as well. -/
theorem update_post_meta_spec (p : Package) (pid : List (String × Option Int))
    (slug : Option String) (pd : Option PDate)
    (hnodup : (pid.map Prod.fst).Nodup) :
    (needUpdate p pid slug pd = false → p.update_post_meta pid slug pd = (p, false)) ∧
    (needUpdate p pid slug pd = true →
      p.update_post_meta pid slug pd =
        ({ p with
            post_id := dictUpdate p.post_id pid
            post_slug := slug
            published_date := pd
            markdown_content := inject_meta p.markdown_content
              [("id", .map ((dictUpdate p.post_id pid).map
                  (fun kv => (kv.1, optIntToScalar kv.2)))),
               ("slug", .scalar (optStrToScalar slug)),
               ("published_date", .scalar (optDateToScalar pd))] }, true)) ∧
    ((p.update_post_meta pid slug pd).1.update_post_meta pid slug pd).2 = false := by
  refine ⟨?_, ?_, ?_⟩
  · intro h
    unfold Package.update_post_meta
    rw [h]
    simp
  · intro h
    unfold Package.update_post_meta
    rw [h]
    simp
  · have hsnd : ∀ q : Package, needUpdate q pid slug pd = false →
        (q.update_post_meta pid slug pd).2 = false := by
      intro q hq
      unfold Package.update_post_meta
      rw [hq]
      simp
    cases hB : needUpdate p pid slug pd with
    | false =>
      have hfst : (p.update_post_meta pid slug pd).1 = p := by
        unfold Package.update_post_meta
        rw [hB]
        simp
      rw [hfst]
      exact hsnd p hB
    | true =>
      have hfst : (p.update_post_meta pid slug pd).1 =
          { p with
              post_id := dictUpdate p.post_id pid
              post_slug := slug
              published_date := pd
              markdown_content := inject_meta p.markdown_content
                [("id", .map ((dictUpdate p.post_id pid).map
                    (fun kv => (kv.1, optIntToScalar kv.2)))),
                 ("slug", .scalar (optStrToScalar slug)),
                 ("published_date", .scalar (optDateToScalar pd))] } := by
        unfold Package.update_post_meta
        rw [hB]
        simp
      rw [hfst]
      apply hsnd
      rw [needUpdate_eq_false_iff]
      refine ⟨fun kv hkv => ?_, rfl, rfl⟩
      exact alookup_dictUpdate_mem _ _ _ _ (by simpa using hkv) hnodup
  
/-- C4 counterexample: for a package whose state already matches the
arguments (the scenario of `test_package_warns_if_no_meta_to_update`), the
first call already returns `false`, so calling twice with the same
arguments returns `false` then `false`, not `true` then `false` as the
claim states for every package state. -/
theorem update_post_meta_counterexample :
    ((Package.mk "utf-8" [("foo", some 12)] "A title" (some "slug") "A topic"
        (some ⟨2017, 3, 30⟩) (some "Foo") "" [] none).update_post_meta
        [("foo", some 12)] (some "slug") (some ⟨2017, 3, 30⟩)).2 = false := by
  decide

/-- C4 witness: a fresh package receiving an id, slug and date for the
first time gives `true` then `false` on two identical calls. -/
theorem update_post_meta_spec_witness :
    ((Package.mk "utf-8" [] "A title" none "A topic" none (some "Foo") "md" [] none).update_post_meta
        [("foo", some 12)] (some "a-title") (some ⟨2017, 3, 30⟩)).2 = true ∧
    (((Package.mk "utf-8" [] "A title" none "A topic" none (some "Foo") "md" [] none).update_post_meta
        [("foo", some 12)] (some "a-title") (some ⟨2017, 3, 30⟩)).1.update_post_meta
        [("foo", some 12)] (some "a-title") (some ⟨2017, 3, 30⟩)).2 = false := by
  constructor
  · rw [(update_post_meta_spec
      (Package.mk "utf-8" [] "A title" none "A topic" none (some "Foo") "md" [] none)
      [("foo", some 12)] (some "a-title") (some ⟨2017, 3, 30⟩) (by decide)).2.1 (by decide)]
  · exact (update_post_meta_spec
      (Package.mk "utf-8" [] "A title" none "A topic" none (some "Foo") "md" [] none)
      [("foo", some 12)] (some "a-title") (some ⟨2017, 3, 30⟩) (by decide)).2.2

theorem alookup_applyPostDefaults (m : List (String × YVal)) (k : String) :
    alookup (applyPostDefaults m) k =
      match alookup m k with
      | some v => some v
      | none =>
        match alookup (if (alookup m "id").isNone then [("id", YVal.map [])] else []) k with
        | some v => some v
        | none =>
          match alookup (if (alookup m "slug").isNone then [("slug", YVal.scalar .null)] else []) k with
          | some v => some v
          | none =>
            alookup (if (alookup m "published_date").isNone
              then [("published_date", YVal.scalar .null)] else []) k := by
  unfold applyPostDefaults
  rw [alookup_append, alookup_append, alookup_append]
  rcases alookup m k with _ | v
  · rcases alookup (if (alookup m "id").isNone then [("id", YVal.map [])] else []) k with _ | w
    · rcases alookup (if (alookup m "slug").isNone then [("slug", YVal.scalar .null)] else []) k with _ | w2
      · rfl
      · rfl
    · rfl
  · rfl

theorem applyPostDefaults_id_none (m : List (String × YVal))
    (hn : alookup m "id" = none) :
    alookup (applyPostDefaults m) "id" = some (.map []) := by
  rw [alookup_applyPostDefaults, hn]
  simp [hn, alookup]

theorem applyPostDefaults_id_some (m : List (String × YVal)) (v : YVal)
    (hv : alookup m "id" = some v) :
    alookup (applyPostDefaults m) "id" = some v := by
  rw [alookup_applyPostDefaults, hv]

theorem applyPostDefaults_slug_none (m : List (String × YVal))
    (hn : alookup m "slug" = none) :
    alookup (applyPostDefaults m) "slug" = some (.scalar .null) := by
  rw [alookup_applyPostDefaults, hn]
  by_cases hc1 : (alookup m "id").isNone <;> simp [alookup, hn, hc1]

theorem applyPostDefaults_slug_some (m : List (String × YVal)) (v : YVal)
    (hv : alookup m "slug" = some v) :
    alookup (applyPostDefaults m) "slug" = some v := by
  rw [alookup_applyPostDefaults, hv]

theorem applyPostDefaults_pd_none (m : List (String × YVal))
    (hn : alookup m "published_date" = none) :
    alookup (applyPostDefaults m) "published_date" = some (.scalar .null) := by
  rw [alookup_applyPostDefaults, hn]
  by_cases hc1 : (alookup m "id").isNone <;>
    by_cases hc2 : (alookup m "slug").isNone <;> simp [alookup, hn, hc1, hc2]

theorem applyPostDefaults_pd_some (m : List (String × YVal)) (v : YVal)
    (hv : alookup m "published_date" = some v) :
    alookup (applyPostDefaults m) "published_date" = some v := by
  rw [alookup_applyPostDefaults, hv]

theorem applyPostDefaults_other (m : List (String × YVal)) (k : String)
    (h1 : k ≠ "id") (h2 : k ≠ "slug") (h3 : k ≠ "published_date") :
    alookup (applyPostDefaults m) k = alookup m k := by
  rw [alookup_applyPostDefaults]
  have g1 : ("id" : String) ≠ k := fun he => h1 he.symm
  have g2 : ("slug" : String) ≠ k := fun he => h2 he.symm
  have g3 : ("published_date" : String) ≠ k := fun he => h3 he.symm
  rcases alookup m k with _ | v
  · by_cases hc1 : (alookup m "id").isNone <;>
      by_cases hc2 : (alookup m "slug").isNone <;>
      by_cases hc3 : (alookup m "published_date").isNone <;>
      simp [alookup, hc1, hc2, hc3, g1, g2, g3]
  · rfl

theorem filter_applyPostDefaults (m : List (String × YVal)) :
    (applyPostDefaults m).filter
        (fun kv => !(["id", "title", "slug", "category", "published_date"].contains kv.1)) =
      m.filter
        (fun kv => !(["id", "title", "slug", "category", "published_date"].contains kv.1)) := by
  unfold applyPostDefaults
  rw [List.filter_append, List.filter_append, List.filter_append]
  by_cases hc1 : (alookup m "id").isNone <;>
    by_cases hc2 : (alookup m "slug").isNone <;>
    by_cases hc3 : (alookup m "published_date").isNone <;>
    simp [hc1, hc2, hc3]

theorem validate_applyPostDefaults (m : List (String × YVal))
    (h : validate_post_meta m = []) :
    validate_post_meta (applyPostDefaults m) = [] ∧
    applyPostDefaults (applyPostDefaults m) = applyPostDefaults m := by
  unfold validate_post_meta at h
  rw [List.append_eq_nil, List.append_eq_nil, List.append_eq_nil,
    List.append_eq_nil, List.append_eq_nil] at h
  obtain ⟨⟨⟨⟨⟨hU, hI⟩, hT⟩, hS⟩, hC⟩, hP⟩ := h
  have ht' : alookup (applyPostDefaults m) "title" = alookup m "title" :=
    applyPostDefaults_other m "title" (by decide) (by decide) (by decide)
  have hc' : alookup (applyPostDefaults m) "category" = alookup m "category" :=
    applyPostDefaults_other m "category" (by decide) (by decide) (by decide)
  constructor
  · unfold validate_post_meta
    rw [filter_applyPostDefaults, hU, ht', hc', hT, hC]
    rcases hvid : alookup m "id" with _ | vid
    · rw [applyPostDefaults_id_none m hvid]
      rcases hvs : alookup m "slug" with _ | vs
      · rw [applyPostDefaults_slug_none m hvs]
        rcases hvp : alookup m "published_date" with _ | vp
        · rw [applyPostDefaults_pd_none m hvp]
          simp
        · rw [applyPostDefaults_pd_some m vp hvp]
          rw [hvp] at hP
          rw [hP]
          simp
      · rw [applyPostDefaults_slug_some m vs hvs]
        rw [hvs] at hS
        rw [hS]
        rcases hvp : alookup m "published_date" with _ | vp
        · rw [applyPostDefaults_pd_none m hvp]
          simp
        · rw [applyPostDefaults_pd_some m vp hvp]
          rw [hvp] at hP
          rw [hP]
          simp
    · rw [applyPostDefaults_id_some m vid hvid]
      rw [hvid] at hI
      rw [hI]
      rcases hvs : alookup m "slug" with _ | vs
      · rw [applyPostDefaults_slug_none m hvs]
        rcases hvp : alookup m "published_date" with _ | vp
        · rw [applyPostDefaults_pd_none m hvp]
          simp
        · rw [applyPostDefaults_pd_some m vp hvp]
          rw [hvp] at hP
          rw [hP]
          simp
      · rw [applyPostDefaults_slug_some m vs hvs]
        rw [hvs] at hS
        rw [hS]
        rcases hvp : alookup m "published_date" with _ | vp
        · rw [applyPostDefaults_pd_none m hvp]
          simp
        · rw [applyPostDefaults_pd_some m vp hvp]
          rw [hvp] at hP
          rw [hP]
          simp
  · have hid2 : (alookup (applyPostDefaults m) "id").isNone = false := by
      rcases hvid : alookup m "id" with _ | vid
      · rw [applyPostDefaults_id_none m hvid]
        rfl
      · rw [applyPostDefaults_id_some m vid hvid]
        rfl
    have hs2 : (alookup (applyPostDefaults m) "slug").isNone = false := by
      rcases hvs : alookup m "slug" with _ | vs
      · rw [applyPostDefaults_slug_none m hvs]
        rfl
      · rw [applyPostDefaults_slug_some m vs hvs]
        rfl
    have hp2 : (alookup (applyPostDefaults m) "published_date").isNone = false := by
      rcases hvp : alookup m "published_date" with _ | vp
      · rw [applyPostDefaults_pd_none m hvp]
        rfl
      · rw [applyPostDefaults_pd_some m vp hvp]
        rfl
    conv_lhs => rw [applyPostDefaults]
    rw [hid2, hs2, hp2]
    simp

/-- C8: for a mapping that validates against the post schema,
`normalize_post_meta` returns it with the defaults applied for the optional
fields (`id` an empty dict, `slug` null, `published_date` null, as the
lookup conjuncts state), and validate-then-normalize is idempotent: running
it on an already-normalized mapping returns that mapping unchanged; for an
invalid mapping it raises a single `PackageValidationError` carrying the
accumulated per-field error map `validate_post_meta m` (which concatenates
the errors of every field rather than stopping at the first). -/
theorem normalize_post_meta_spec (m : List (String × YVal)) :
    (validate_post_meta m ≠ [] →
      normalize_post_meta (some (.map m)) =
        .error (.packageValidationError (validate_post_meta m))) ∧
    (validate_post_meta m = [] →
      normalize_post_meta (some (.map m)) = .ok (applyPostDefaults m) ∧
      normalize_post_meta (some (.map (applyPostDefaults m))) = .ok (applyPostDefaults m)) ∧
    (alookup m "id" = none → alookup (applyPostDefaults m) "id" = some (.map [])) ∧
    (alookup m "slug" = none →
      alookup (applyPostDefaults m) "slug" = some (.scalar .null)) ∧
    (alookup m "published_date" = none →
      alookup (applyPostDefaults m) "published_date" = some (.scalar .null)) := by
  refine ⟨?_, ?_, applyPostDefaults_id_none m, applyPostDefaults_slug_none m,
    applyPostDefaults_pd_none m⟩
  · intro h
    have hred : normalize_post_meta (some (.map m)) =
        if validate_post_meta m = [] then .ok (applyPostDefaults m)
        else .error (.packageValidationError (validate_post_meta m)) := rfl
    rw [hred, if_neg h]
  · intro h
    obtain ⟨h1, h2⟩ := validate_applyPostDefaults m h
    constructor
    · have hred : normalize_post_meta (some (.map m)) =
          if validate_post_meta m = [] then .ok (applyPostDefaults m)
          else .error (.packageValidationError (validate_post_meta m)) := rfl
      rw [hred, if_pos h]
    · have hred : normalize_post_meta (some (.map (applyPostDefaults m))) =
          if validate_post_meta (applyPostDefaults m) = []
          then .ok (applyPostDefaults (applyPostDefaults m))
          else .error (.packageValidationError (validate_post_meta (applyPostDefaults m))) := rfl
      rw [hred, if_pos h1, h2]

/-- C8 witness: the minimal valid mapping `{title, category}` normalizes to
itself plus the three defaults, and normalizing the result again returns it
unchanged. -/
theorem normalize_post_meta_spec_witness :
    normalize_post_meta (some (.map [("title", .scalar (.str "T")),
        ("category", .scalar (.str "C"))])) =
      .ok (applyPostDefaults [("title", .scalar (.str "T")),
        ("category", .scalar (.str "C"))]) ∧
    normalize_post_meta (some (.map (applyPostDefaults [("title", .scalar (.str "T")),
        ("category", .scalar (.str "C"))]))) =
      .ok (applyPostDefaults [("title", .scalar (.str "T")),
        ("category", .scalar (.str "C"))]) :=
  (normalize_post_meta_spec [("title", .scalar (.str "T")),
    ("category", .scalar (.str "C"))]).2.1 (by decide)

theorem getResourcesLoop_spec (dir : List (PPath × Bytes)) (refs : List String)
    (acc : List (PPath × Bytes)) (nf : List String) :
    getResourcesLoop dir refs acc nf =
      (acc ++ (refs.filter (fun ref => decide ((PPath.parse ref).components ≠ []) &&
            (plookup dir (PPath.parse ref)).isSome)).map
          (fun ref => (PPath.parse ref, (plookup dir (PPath.parse ref)).getD [])),
       nf ++ refs.filter (fun ref => decide ((PPath.parse ref).components = []) ||
            (plookup dir (PPath.parse ref)).isNone)) := by
  induction refs generalizing acc nf with
  | nil => simp [getResourcesLoop]
  | cons ref r ih =>
    rw [getResourcesLoop]
    by_cases hemp : (PPath.parse ref).components = []
    · rw [if_pos hemp]
      simp [ih, List.filter, hemp]
    · rw [if_neg hemp]
      rcases hl : plookup dir (PPath.parse ref) with _ | b
      · simp [ih, List.filter, hemp, hl]
      · simp [ih, List.filter, hemp, hl, List.append_assoc]

theorem get_resources_ok {dir : List (PPath × Bytes)} {refs : List String}
    {res : List (PPath × Bytes)} (h : get_resources dir refs = .ok res) :
    (∀ ref ∈ refs, (PPath.parse ref).components ≠ [] ∧
      (plookup dir (PPath.parse ref)).isSome) ∧
    res = refs.map (fun ref => (PPath.parse ref, (plookup dir (PPath.parse ref)).getD [])) := by
  unfold get_resources at h
  rw [getResourcesLoop_spec] at h
  simp only [List.nil_append] at h
  by_cases hnf : refs.filter (fun ref => decide ((PPath.parse ref).components = []) ||
      (plookup dir (PPath.parse ref)).isNone) = []
  · rw [hnf] at h
    simp at h
    have hall : ∀ ref ∈ refs, (PPath.parse ref).components ≠ [] ∧
        (plookup dir (PPath.parse ref)).isSome := by
      intro ref href
      have hthis := List.filter_eq_nil_iff.1 hnf ref href
      constructor
      · intro he
        exact hthis (by simp [he])
      · rcases hl : plookup dir (PPath.parse ref) with _ | b
        · exact absurd (by simp [hl]) hthis
        · rfl
    refine ⟨hall, ?_⟩
    rw [← h]
    congr 1
    rw [List.filter_eq_self]
    intro ref href
    simp [(hall ref href).1, (hall ref href).2]
  · rw [if_pos hnf] at h
    exact absurd h (by simp)

theorem extractResourcesLoop_found (tar : Tar) (paths : List PPath)
    (rc : Option Bytes) (acc : List ResourceHandler) (nf : List String)
    (h : ∀ p ∈ paths,
      (tarLookup tar ("resources" :: p.components)).isSome ∧ p.absolute = false) :
    extractResourcesLoop tar paths rc acc nf =
      .ok (acc ++ paths.map (fun p =>
        ⟨(tarLookup tar ("resources" :: p.components)).getD [], p⟩), nf) := by
  induction paths generalizing rc acc with
  | nil => simp [extractResourcesLoop]
  | cons p r ih =>
    obtain ⟨hsome, habs⟩ := h p (List.mem_cons_self _ _)
    have htail : ∀ q ∈ r,
        (tarLookup tar ("resources" :: q.components)).isSome ∧ q.absolute = false :=
      fun q hq => h q (List.mem_cons_of_mem _ hq)
    rcases hl : tarLookup tar ("resources" :: p.components) with _ | b
    · rw [hl] at hsome
      simp at hsome
    · rw [extractResourcesLoop, hl]
      simp only [habs, Bool.false_eq_true, if_false]
      rw [ih (some b) (acc ++ [ResourceHandler.mk b p]) htail]
      simp [hl, List.append_assoc]

theorem extract_package_resources_found (tar : Tar) (paths : List PPath)
    (h : ∀ p ∈ paths,
      (tarLookup tar ("resources" :: p.components)).isSome ∧ p.absolute = false) :
    extract_package_resources tar paths =
      .ok (paths.map (fun p =>
        ⟨(tarLookup tar ("resources" :: p.components)).getD [], p⟩)) := by
  unfold extract_package_resources
  rw [extractResourcesLoop_found tar paths none [] [] h]
  simp

theorem tarLookup_build_pkgyml (mb pb : Bytes) (postName : String) (resEntries : Tar)
    (hn1 : postName ≠ "package.yml")
    (hres : ∀ e ∈ resEntries, ∃ cs b, cs ≠ [] ∧ e = ("resources" :: cs, b)) :
    tarLookup ((["package.yml"], mb) :: ([postName], pb) :: resEntries)
      ["package.yml"] = some mb := by
  have h2 : tarLookup (([postName], pb) :: resEntries) ["package.yml"] = none := by
    rw [tarLookup_eq_none_iff]
    intro e he
    rcases List.mem_cons.1 he with he | he
    · subst he
      simp [hn1]
    · obtain ⟨cs, b, _, rfl⟩ := hres e he
      intro hcontra
      injection hcontra with h1 _
      exact absurd h1 (by decide)
  rw [tarLookup, h2]
  simp

theorem tarLookup_build_post (mb pb : Bytes) (postName : String) (resEntries : Tar)
    (hres : ∀ e ∈ resEntries, ∃ cs b, cs ≠ [] ∧ e = ("resources" :: cs, b)) :
    tarLookup ((["package.yml"], mb) :: ([postName], pb) :: resEntries)
      [postName] = some pb := by
  have h3 : tarLookup resEntries [postName] = none := by
    rw [tarLookup_eq_none_iff]
    intro e he
    obtain ⟨cs, b, hcs, rfl⟩ := hres e he
    intro hcontra
    have hlen := congrArg List.length hcontra
    simp at hlen
    exact hcs hlen
  have h2 : tarLookup (([postName], pb) :: resEntries) [postName] = some pb := by
    rw [tarLookup, h3]
    simp
  rw [tarLookup, h2]

theorem tarLookup_build_resource (mb pb : Bytes) (postName : String)
    (resEntries : Tar) (cs : List String) (b : Bytes)
    (hlast : tarLookup resEntries ("resources" :: cs) = some b) :
    tarLookup ((["package.yml"], mb) :: ([postName], pb) :: resEntries)
      ("resources" :: cs) = some b := by
  have h2 : tarLookup (([postName], pb) :: resEntries) ("resources" :: cs) = some b := by
    rw [tarLookup, hlast]
  rw [tarLookup, h2]

theorem map_congr_mem {α β : Type} {l : List α} {f g : α → β}
    (h : ∀ a ∈ l, f a = g a) : l.map f = l.map g := by
  induction l with
  | nil => rfl
  | cons a r ih =>
    rw [List.map_cons, List.map_cons, h a (List.mem_cons_self _ _),
      ih (fun x hx => h x (List.mem_cons_of_mem _ hx))]

/-- C1: building a package from a markdown source with valid post front
matter and only resolvable resource references (`build_package` succeeding
states exactly that) and reading the produced archive back yields the
original `Package` value itself: in particular the same `post_title`,
`category_name`, `markdown_content` and resource handlers (same relative
paths with byte-identical content). The round trip requires the post file
not to be named `package.yml` (the built archive then carries two members
of that name and reading parses the post as the manifest) and its decoded
content to carry no carriage returns (text-mode reading otherwise
translates the line endings that the archived raw bytes keep); the closed
counterexample exercises both failures. -/
theorem build_read_roundtrip (parser : String → MdOut) (postName encoding : String)
    (postBytes : Bytes) (dir : List (PPath × Bytes)) (tar : Tar) (pkg : Package)
    (hn1 : postName ≠ "package.yml")
    (hcr : crInDecoded encoding postBytes = false)
    (hbuild : build_package parser postName postBytes dir encoding = .ok (tar, pkg)) :
    read_package parser tar = .ok pkg := by
  unfold build_package at hbuild
  rcases hdec : decodeWith encoding postBytes with e | content
  · simp only [hdec] at hbuild
    exact absurd hbuild (by simp)
  simp only [hdec] at hbuild
  have hnocr : '\r' ∉ content.data := by
    unfold crInDecoded at hcr
    rw [hdec] at hcr
    intro hmem
    have h2 := List.any_eq_false.1 hcr '\r' hmem
    simp at h2
  have hmc : String.mk (univNl content.data) = content := by
    rw [univNl_of_not_mem hnocr]
  rw [hmc] at hbuild
  rcases hnm : normalize_post_meta (parser content).meta with e | nm
  · simp only [hnm] at hbuild
    exact absurd hbuild (by simp)
  simp only [hnm] at hbuild
  rcases hgr : get_resources dir (parser content).resourcePath with e | res
  · simp only [hgr] at hbuild
    exact absurd hbuild (by simp)
  simp only [hgr] at hbuild
  cases hall : res.all (fun rb => !rb.1.absolute) with
  | false =>
    simp only [hall, Bool.false_eq_true, if_false] at hbuild
    exact absurd hbuild (by simp)
  | true =>
    simp only [hall, if_true] at hbuild
    rw [Except.ok.injEq, Prod.mk.injEq] at hbuild
    obtain ⟨htar, hpkg⟩ := hbuild
    obtain ⟨hfound, hres⟩ := get_resources_ok hgr
    subst htar
    subst hpkg
    simp only [List.cons_append, List.nil_append]
    have hresShape : ∀ e ∈ List.map
        (fun rb => (("resources" :: rb.1.components : TarName), rb.2)) res,
        ∃ cs b, cs ≠ [] ∧ e = ("resources" :: cs, b) := by
      intro e he
      obtain ⟨rb, hrb, rfl⟩ := List.mem_map.1 he
      rw [hres] at hrb
      obtain ⟨ref, href, rfl⟩ := List.mem_map.1 hrb
      exact ⟨(PPath.parse ref).components, _, (hfound ref href).1, rfl⟩
    have habs : ∀ rb ∈ res, rb.1.absolute = false := by
      intro rb hrb
      have h2 := List.all_eq_true.1 hall rb hrb
      simpa using h2
    have hmemres : ∀ ref ∈ (parser content).resourcePath,
        (PPath.parse ref, (plookup dir (PPath.parse ref)).getD []) ∈ res := by
      intro ref href
      rw [hres]
      exact List.mem_map.2 ⟨ref, href, rfl⟩
    have hcontent : ∀ ref ∈ (parser content).resourcePath,
        tarLookup (List.map (fun rb => (("resources" :: rb.1.components : TarName), rb.2)) res)
          ("resources" :: (PPath.parse ref).components)
        = some ((plookup dir (PPath.parse ref)).getD []) := by
      intro ref href
      apply tarLookup_eq_some
      · exact List.mem_map.2 ⟨_, hmemres ref href, rfl⟩
      · intro e he h1
        obtain ⟨rb, hrb, rfl⟩ := List.mem_map.1 he
        injection h1 with _ hcomp
        rw [hres] at hrb
        obtain ⟨q, hq, rfl⟩ := List.mem_map.1 hrb
        have h1abs : (PPath.parse q).absolute = false := by
          have hm : (PPath.parse q, (plookup dir (PPath.parse q)).getD []) ∈ res := by
            rw [hres]
            exact List.mem_map.2 ⟨q, hq, rfl⟩
          simpa using habs _ hm
        have h2abs : (PPath.parse ref).absolute = false := by
          simpa using habs _ (hmemres ref href)
        have hpq : PPath.parse q = PPath.parse ref := by
          have h3 : PPath.mk (PPath.parse q).absolute (PPath.parse q).components =
              PPath.mk (PPath.parse ref).absolute (PPath.parse ref).components := by
            rw [h1abs, h2abs, hcomp]
          exact h3
        rw [hpq]
    have hmeta : extract_package_meta
        ((["package.yml"], utf8Encode (yamlDumpMeta postName encoding)) ::
          ([postName], postBytes) ::
          List.map (fun rb => (("resources" :: rb.1.components : TarName), rb.2)) res) =
        .ok [("encoding", .scalar (.str encoding)), ("post", .scalar (.str postName))] := by
      have hval : validate_package_meta
          [("encoding", .scalar (.str encoding)), ("post", .scalar (.str postName))] = [] := by
        simp [validate_package_meta, alookup]
      unfold extract_package_meta
      simp only [tarLookup_build_pkgyml _ _ _ _ hn1 hresShape, utf8Decode_utf8Encode,
        yamlLoad_yamlDumpMeta postName encoding, hval]
      simp
    have hpostStr : metaStr
        [("encoding", YVal.scalar (.str encoding)), ("post", YVal.scalar (.str postName))]
        "post" = postName := by
      simp [metaStr, alookup]
    have hencStr : metaStr
        [("encoding", YVal.scalar (.str encoding)), ("post", YVal.scalar (.str postName))]
        "encoding" = encoding := by
      simp [metaStr, alookup]
    have hfoundTar : ∀ p ∈ (parser content).resourcePath.map PPath.parse,
        (tarLookup
          ((["package.yml"], utf8Encode (yamlDumpMeta postName encoding)) ::
            ([postName], postBytes) ::
            List.map (fun rb => (("resources" :: rb.1.components : TarName), rb.2)) res)
          ("resources" :: p.components)).isSome ∧ p.absolute = false := by
      intro p hp
      obtain ⟨ref, href, rfl⟩ := List.mem_map.1 hp
      constructor
      · rw [tarLookup_build_resource _ _ _ _ _ _ (hcontent ref href)]
        rfl
      · simpa using habs _ (hmemres ref href)
    have hrespack := extract_package_resources_found _ _ hfoundTar
    unfold read_package
    simp only [hmeta, hpostStr, hencStr,
      tarLookup_build_post _ _ _ _ hresShape, hdec, hnm, hrespack,
      Except.ok.injEq]
    rw [Package.mk.injEq]
    refine ⟨rfl, rfl, rfl, rfl, rfl, rfl, rfl, rfl, ?_, rfl⟩
    rw [List.map_map]
    conv_rhs => rw [hres, List.map_map]
    apply map_congr_mem
    intro ref href
    simp only [Function.comp_apply]
    rw [tarLookup_build_resource _ _ _ _ _ _ (hcontent ref href)]
    rfl

/-- C1 witness: a one-resource post round-trips: building and reading back
reproduce the title, category, markdown content and the resource bytes. -/
theorem build_read_roundtrip_witness :
    read_package mdParse
      [(["package.yml"], utf8Encode "encoding: utf-8\npost: post.md\n"),
       (["post.md"], utf8Encode "---\ntitle: T\ncategory: C\n---\nsee ![x](img.png)"),
       (["resources", "img.png"], [137, 80])] =
      .ok { post_encoding := "utf-8", post_id := [], post_title := "T",
            post_slug := none, category_name := "C", published_date := none,
            summary := none,
            markdown_content := "---\ntitle: T\ncategory: C\n---\nsee ![x](img.png)",
            resources := [⟨[137, 80], ⟨false, ["img.png"]⟩⟩],
            htmlContent := none } :=
  build_read_roundtrip mdParse "post.md" "utf-8"
    (utf8Encode "---\ntitle: T\ncategory: C\n---\nsee ![x](img.png)")
    [(PPath.parse "img.png", [137, 80])] _ _
    (by decide) (by decide) (by decide)

/-- C1 counterexample: the unrestricted round-trip law fails twice over.
(a) A post file named `package.yml`: `build_package` succeeds and writes
two archive members named `package.yml`; member lookup resolves the name to
the later one, so `read_package` parses the post itself as the manifest and
raises `PackageException` instead of reproducing the built package.
(b) A post source containing a `\r\n` line ending: text-mode reading stores
the translated content (`...b\nc`) in the built package while `tar.add`
archives the raw bytes, so reading back succeeds but returns a `Package`
with a different `markdown_content` (`...b\r\nc`). -/
theorem build_read_roundtrip_counterexample :
    (build_package mdParse "package.yml"
        (utf8Encode "---\ntitle: T\ncategory: C\n---\nbody") [] "utf-8" =
      .ok ([(["package.yml"], utf8Encode "encoding: utf-8\npost: package.yml\n"),
            (["package.yml"], utf8Encode "---\ntitle: T\ncategory: C\n---\nbody")],
           { post_encoding := "utf-8", post_id := [], post_title := "T",
             post_slug := none, category_name := "C", published_date := none,
             summary := none,
             markdown_content := "---\ntitle: T\ncategory: C\n---\nbody",
             resources := [], htmlContent := none }) ∧
     read_package mdParse
        [(["package.yml"], utf8Encode "encoding: utf-8\npost: package.yml\n"),
         (["package.yml"], utf8Encode "---\ntitle: T\ncategory: C\n---\nbody")] =
       .error (.packageException "The package.yml file does not contain valid YAML")) ∧
    (build_package mdParse "p.md"
        (utf8Encode "---\ntitle: T\ncategory: C\n---\nb\r\nc") [] "utf-8" =
      .ok ([(["package.yml"], utf8Encode "encoding: utf-8\npost: p.md\n"),
            (["p.md"], utf8Encode "---\ntitle: T\ncategory: C\n---\nb\r\nc")],
           { post_encoding := "utf-8", post_id := [], post_title := "T",
             post_slug := none, category_name := "C", published_date := none,
             summary := none,
             markdown_content := "---\ntitle: T\ncategory: C\n---\nb\nc",
             resources := [], htmlContent := none }) ∧
     read_package mdParse
        [(["package.yml"], utf8Encode "encoding: utf-8\npost: p.md\n"),
         (["p.md"], utf8Encode "---\ntitle: T\ncategory: C\n---\nb\r\nc")] =
       .ok { post_encoding := "utf-8", post_id := [], post_title := "T",
             post_slug := none, category_name := "C", published_date := none,
             summary := none,
             markdown_content := "---\ntitle: T\ncategory: C\n---\nb\r\nc",
             resources := [], htmlContent := none } ∧
     ("---\ntitle: T\ncategory: C\n---\nb\nc" : String) ≠
       "---\ntitle: T\ncategory: C\n---\nb\r\nc") :=
  ⟨⟨by decide, by decide⟩, by decide, by decide, by decide⟩
